import Mathlib

/-!
Verification development for the skeletal-animation editor
(`src/skinning/{App,Gui,Scene,Shaders}.ts`).  The active revision of the
program (the one whose pieces reference each other: `App.ts`, the second
revision of `Gui.ts` with `KeyFrame`/`keyFrames`, and the revision of
`Scene.ts` with `calculateD_iAndTranslate` and the `Bone` copy
constructor) is embedded shallowly:

* the vendored TSM math library (`src/lib/TSM.js`, not included in the
  source snapshot) is modelled from the spec's description as standard
  exact-real vector/quaternion/matrix algebra;
* bones, meshes and the GUI state are Lean structures; mutation is
  explicit state passing;
* the recursive hierarchy walks (`getU_i`, `getD_i`, `getR_i`,
  `updateMesh`, `calculateD_iAndTranslate`) take a fuel argument and
  return `Option`, so termination is a provable statement;
* object identity (which the keyframe-isolation and bind-pose
  immutability claims are about) is modelled by a store of numbered
  cells for Vec3/Quat/Mat4 objects and bones holding cell addresses.
-/

noncomputable section

namespace VM

/-! ### Exact-real model of the TSM vector/matrix/quaternion library

Modelled from the spec: TSM (`src/lib/TSM.js`) is repository code that is
not part of the snapshot; the spec (section 2) describes it as a standard
3D math library with compose, invert, axis-angle construction and
spherical interpolation.  Floating point is modelled by exact reals. -/

/-- A 3-component vector (TSM `Vec3`), over exact reals. -/
@[ext]
structure V3 where
  x : ℝ
  y : ℝ
  z : ℝ

namespace V3

def add (a b : V3) : V3 := ⟨a.x + b.x, a.y + b.y, a.z + b.z⟩

/-- TSM `Vec3.difference a b` returns `a - b` componentwise. -/
def diff (a b : V3) : V3 := ⟨a.x - b.x, a.y - b.y, a.z - b.z⟩

def smul (c : ℝ) (a : V3) : V3 := ⟨c * a.x, c * a.y, c * a.z⟩

def dot (a b : V3) : ℝ := a.x * b.x + a.y * b.y + a.z * b.z

def cross (a b : V3) : V3 :=
  ⟨a.y * b.z - a.z * b.y, a.z * b.x - a.x * b.z, a.x * b.y - a.y * b.x⟩

def normSq (a : V3) : ℝ := a.x * a.x + a.y * a.y + a.z * a.z

/-- TSM `Vec3.length`: Euclidean length. -/
def len (a : V3) : ℝ := Real.sqrt a.normSq

/-- TSM `Vec3.distance a b`. -/
def distv (a b : V3) : ℝ := len (diff a b)

/-- Modelled from the spec: TSM `Vec3.normalize` guards the zero vector
(the spec, section 7, requires degenerate geometry to be handled
defensively, not by raising errors); a zero-length vector normalizes
to itself. -/
def normalize (a : V3) : V3 := if len a = 0 then a else smul (1 / len a) a

def zero : V3 := ⟨0, 0, 0⟩

end V3

/-- A quaternion (TSM `Quat`), components `x y z w` with `w` the scalar
part, over exact reals. -/
@[ext]
structure QuatH where
  x : ℝ
  y : ℝ
  z : ℝ
  w : ℝ

namespace QuatH

/-- TSM `Quat.product q1 q2`: the Hamilton product `q1 * q2`. -/
def mul (a b : QuatH) : QuatH :=
  ⟨a.w * b.x + a.x * b.w + a.y * b.z - a.z * b.y,
   a.w * b.y + a.y * b.w + a.z * b.x - a.x * b.z,
   a.w * b.z + a.z * b.w + a.x * b.y - a.y * b.x,
   a.w * b.w - a.x * b.x - a.y * b.y - a.z * b.z⟩

def one : QuatH := ⟨0, 0, 0, 1⟩

def normSq (q : QuatH) : ℝ := q.x * q.x + q.y * q.y + q.z * q.z + q.w * q.w

/-- A unit quaternion. -/
def IsUnit (q : QuatH) : Prop := normSq q = 1

/-- TSM `Quat.fromAxisAngle axis angle`: half-angle axis-angle
construction (the axis is used as given, not normalized). -/
def fromAxisAngle (axis : V3) (angle : ℝ) : QuatH :=
  ⟨axis.x * Real.sin (angle / 2), axis.y * Real.sin (angle / 2),
   axis.z * Real.sin (angle / 2), Real.cos (angle / 2)⟩

end QuatH

/-- A 3×3 matrix, row-major fields `r<row><col>`. -/
@[ext]
structure M3 where
  r00 : ℝ
  r01 : ℝ
  r02 : ℝ
  r10 : ℝ
  r11 : ℝ
  r12 : ℝ
  r20 : ℝ
  r21 : ℝ
  r22 : ℝ

namespace M3

def id3 : M3 := ⟨1, 0, 0, 0, 1, 0, 0, 0, 1⟩

def zero3 : M3 := ⟨0, 0, 0, 0, 0, 0, 0, 0, 0⟩

def mul (m n : M3) : M3 :=
  ⟨m.r00 * n.r00 + m.r01 * n.r10 + m.r02 * n.r20,
   m.r00 * n.r01 + m.r01 * n.r11 + m.r02 * n.r21,
   m.r00 * n.r02 + m.r01 * n.r12 + m.r02 * n.r22,
   m.r10 * n.r00 + m.r11 * n.r10 + m.r12 * n.r20,
   m.r10 * n.r01 + m.r11 * n.r11 + m.r12 * n.r21,
   m.r10 * n.r02 + m.r11 * n.r12 + m.r12 * n.r22,
   m.r20 * n.r00 + m.r21 * n.r10 + m.r22 * n.r20,
   m.r20 * n.r01 + m.r21 * n.r11 + m.r22 * n.r21,
   m.r20 * n.r02 + m.r21 * n.r12 + m.r22 * n.r22⟩

/-- TSM `Mat3.multiplyVec3`. -/
def apply (m : M3) (v : V3) : V3 :=
  ⟨m.r00 * v.x + m.r01 * v.y + m.r02 * v.z,
   m.r10 * v.x + m.r11 * v.y + m.r12 * v.z,
   m.r20 * v.x + m.r21 * v.y + m.r22 * v.z⟩

/-- The TSM `Mat3` constructor takes nine values in column-major order
(`values[0..2]` are the first column). -/
def ofColMajor (a0 a1 a2 a3 a4 a5 a6 a7 a8 : ℝ) : M3 :=
  ⟨a0, a3, a6, a1, a4, a7, a2, a5, a8⟩

def det (m : M3) : ℝ :=
  m.r00 * (m.r11 * m.r22 - m.r12 * m.r21)
    - m.r01 * (m.r10 * m.r22 - m.r12 * m.r20)
    + m.r02 * (m.r10 * m.r21 - m.r11 * m.r20)

/-- The adjugate (transposed cofactor) matrix. -/
def adj (m : M3) : M3 :=
  ⟨m.r11 * m.r22 - m.r12 * m.r21,
   m.r02 * m.r21 - m.r01 * m.r22,
   m.r01 * m.r12 - m.r02 * m.r11,
   m.r12 * m.r20 - m.r10 * m.r22,
   m.r00 * m.r22 - m.r02 * m.r20,
   m.r02 * m.r10 - m.r00 * m.r12,
   m.r10 * m.r21 - m.r11 * m.r20,
   m.r01 * m.r20 - m.r00 * m.r21,
   m.r00 * m.r11 - m.r01 * m.r10⟩

def smulM (c : ℝ) (m : M3) : M3 :=
  ⟨c * m.r00, c * m.r01, c * m.r02, c * m.r10, c * m.r11, c * m.r12,
   c * m.r20, c * m.r21, c * m.r22⟩

/-- TSM `Mat3.inverse` for a regular matrix is the adjugate scaled by the
reciprocal determinant.  Modelled from the spec: on a singular matrix the
library's behaviour is unspecified external code; the spec (section 7)
requires degenerate frames to make a bone unselectable, which the zero
matrix realises (it sends every ray to the degenerate zero ray). -/
def inv (m : M3) : M3 := if det m = 0 then zero3 else smulM (1 / det m) (adj m)

end M3

/-- An affine transform, the shape every `Mat4` built by the program has
(products of translations and rotation matrices): `v ↦ lin v + tr`. -/
@[ext]
structure AT where
  lin : M3
  tr : V3

namespace AT

def idA : AT := ⟨M3.id3, V3.zero⟩

/-- `Mat4.product p q`: composition `p ∘ q`. -/
def mul (p q : AT) : AT := ⟨M3.mul p.lin q.lin, V3.add (M3.apply p.lin q.tr) p.tr⟩

/-- TSM `Mat4.translate m v`: post-composition with a translation,
`m * T(v)`. -/
def translate (m : AT) (v : V3) : AT := mul m ⟨M3.id3, v⟩

/-- TSM `Mat4.multiplyPt3`: apply the affine map to a point. -/
def applyPt (m : AT) (v : V3) : V3 := V3.add (M3.apply m.lin v) m.tr

end AT

/-- TSM `Quat.toMat4` restricted to its rotation block: the standard
(unnormalized-form) rotation matrix of a quaternion. -/
def quatToM3 (q : QuatH) : M3 :=
  ⟨1 - 2 * (q.y * q.y + q.z * q.z), 2 * (q.x * q.y - q.z * q.w), 2 * (q.x * q.z + q.y * q.w),
   2 * (q.x * q.y + q.z * q.w), 1 - 2 * (q.x * q.x + q.z * q.z), 2 * (q.y * q.z - q.x * q.w),
   2 * (q.x * q.z - q.y * q.w), 2 * (q.y * q.z + q.x * q.w), 1 - 2 * (q.x * q.x + q.y * q.y)⟩

/-- `Quat.toMat4` as an affine transform (zero translation). -/
def quatToAT (q : QuatH) : AT := ⟨quatToM3 q, V3.zero⟩

/-! ### Value-level skeleton model (`Scene.ts`, active revision) -/

/-- The data a loader-supplied bone carries (`BoneLoader`): parent index,
child indices, bind-pose joint position/endpoint and orientation. -/
structure BoneLoaderV where
  parent : ℤ
  children : List ℕ
  position : V3
  endpoint : V3
  rotation : QuatH

/-- `Bone` (Scene.ts, active revision): per-bone state. -/
structure BoneV where
  parent : ℤ
  children : List ℕ
  position : V3
  endpoint : V3
  rotation : QuatH
  isHighlight : Bool
  T_ij : AT
  R_i : QuatH
  initPosition : V3
  initEndpoint : V3

/-- The `Bone` constructor applied to a `BoneLoader` (the
non-copy branch): current and bind-pose state from the loader, identity
`T_ij` and `R_i`, not highlighted. -/
def mkBone (lb : BoneLoaderV) : BoneV :=
  { parent := lb.parent
    children := lb.children
    position := lb.position
    endpoint := lb.endpoint
    rotation := lb.rotation
    isHighlight := false
    T_ij := AT.idA
    R_i := QuatH.one
    initPosition := lb.position
    initEndpoint := lb.endpoint }

/-- `Bone.rotateBone(axis, angle)` (active revision):
`R_i = Quat.product(R_i, Quat.fromAxisAngle(axis, angle)).copy()`. -/
def rotateBone (b : BoneV) (axis : V3) (angle : ℝ) : BoneV :=
  { b with R_i := QuatH.mul b.R_i (QuatH.fromAxisAngle axis angle) }

/-- `Mesh` restricted to its skeleton (`bones` array). -/
structure MeshV where
  bones : List BoneV

namespace MeshV

/-- The `T_ij` initialization pass of the `Mesh` constructor (active
revision): for each bone, `translation = initPosition` or
`Vec3.difference(initPosition, bones[parent].initPosition)` when the bone
has a parent, then `T_ij.translate(translation)`.  The pass only reads
bind-pose fields, which it never writes, so it is order-independent and
expressed as a map over the freshly constructed bone list. -/
def fixT_ij (bones : List BoneV) : List BoneV :=
  bones.map fun b =>
    let translation : V3 :=
      if b.parent = -1 then b.initPosition
      else
        match bones.get? b.parent.toNat with
        | some pb => V3.diff b.initPosition pb.initPosition
        | none => b.initPosition
    { b with T_ij := AT.translate b.T_ij translation }

/-- The `Mesh` constructor's skeleton part: build each `Bone` from the
loader, then fix every bone's `T_ij`. -/
def mkMesh (lbs : List BoneLoaderV) : MeshV :=
  ⟨fixT_ij (lbs.map mkBone)⟩

/-- The call `mesh.bones[i].rotateBone(axis, angle)`: replace bone `i` by
its rotated version; all other bones untouched. -/
def meshRotateBone (m : MeshV) (i : ℕ) (axis : V3) (angle : ℝ) : MeshV :=
  match m.bones.get? i with
  | some b => ⟨m.bones.set i (rotateBone b axis angle)⟩
  | none => m

/-- A finite sequence of `rotateBone` calls. -/
def applyRotations (m : MeshV) : List (ℕ × V3 × ℝ) → MeshV
  | [] => m
  | (i, axis, angle) :: rest => applyRotations (meshRotateBone m i axis angle) rest

/-- Parent lookup: `this.bones[parent]` is only defined for a
non-negative in-range parent index (a JS out-of-range access would read
`undefined` and throw on the next field access, modelled as `none`). -/
def parentIdx (b : BoneV) : Option ℕ :=
  if 0 ≤ b.parent then some b.parent.toNat else none

/-- `Mesh.getU_i` (active revision) with explicit recursion fuel:
root bones get the bind-pose translation, others
`Mat4.product(getU_i(parent), T_ij)`. -/
def getU_i (m : MeshV) : ℕ → ℕ → Option AT
  | 0, _ => none
  | fuel + 1, i => do
    let b ← m.bones.get? i
    if b.parent = -1 then
      pure (AT.translate AT.idA b.initPosition)
    else do
      let p ← parentIdx b
      let uP ← getU_i m fuel p
      pure (AT.mul uP b.T_ij)

/-- `Mesh.getD_i` (active revision) with explicit recursion fuel.  For a
root the code builds `D_i.translate(initPosition)` but then discards it
and returns `Mat4.product(T_ij, R_i.toMat4())` (after the constructor,
`T_ij` of a root is exactly the translation by `initPosition`). -/
def getD_i (m : MeshV) : ℕ → ℕ → Option AT
  | 0, _ => none
  | fuel + 1, i => do
    let b ← m.bones.get? i
    if b.parent = -1 then
      pure (AT.mul b.T_ij (quatToAT b.R_i))
    else do
      let p ← parentIdx b
      let dP ← getD_i m fuel p
      pure (AT.mul dP (AT.mul b.T_ij (quatToAT b.R_i)))

/-- `Mesh.getR_i` (active revision) with explicit recursion fuel. -/
def getR_i (m : MeshV) : ℕ → ℕ → Option QuatH
  | 0, _ => none
  | fuel + 1, i => do
    let b ← m.bones.get? i
    if b.parent = -1 then
      pure b.R_i
    else do
      let p ← parentIdx b
      let rP ← getR_i m fuel p
      pure (QuatH.mul rP b.R_i)

/-- Sequential fallible fold over a child list (the
`for (let i = 0; i < children.length; i++)` recursion pattern). -/
def goList (f : MeshV → ℕ → Option MeshV) : MeshV → List ℕ → Option MeshV
  | m, [] => some m
  | m, c :: cs => do
    let m' ← f m c
    goList f m' cs

/-- The `if (D_parent == null || rot_parent == null)` block of
`Mesh.updateMesh` computing `D_i` and `rotation_i`: a top-level call
derives them from `getD_i`/`getR_i`, a recursive call composes with the
parent state. -/
def updateDI (m : MeshV) (fuel i : ℕ) (b : BoneV) :
    Option (AT × QuatH) → Option (AT × QuatH)
  | none => do
    let d ← getD_i m fuel i
    let r ← getR_i m fuel i
    pure (d, r)
  | some (dP, rP) =>
    pure (AT.mul dP (AT.mul b.T_ij (quatToAT b.R_i)), QuatH.mul rP b.R_i)

/-- `Mesh.updateMesh(bone, D_parent, rot_parent)` (active revision) with
explicit recursion fuel.  The code recurses into children first and then
assigns `position`, `endpoint` (the transformed bind-pose bone vector)
and `rotation` of the current bone. -/
def updateMesh (m : MeshV) : ℕ → ℕ → Option (AT × QuatH) → Option MeshV
  | 0, _, _ => none
  | fuel + 1, i, dp => do
    let b ← m.bones.get? i
    let (dI, rotI) ← updateDI m (fuel + 1) i b dp
    let m' ← goList (fun mm c => updateMesh mm fuel c (some (dI, rotI))) m b.children
    let b' ← m'.bones.get? i
    pure ⟨m'.bones.set i
      { b' with
        position := AT.applyPt dI V3.zero
        endpoint := AT.applyPt dI (V3.diff b'.initEndpoint b'.initPosition)
        rotation := rotI }⟩

/-- The `if (D_parent == null)` block of `Mesh.calculateD_iAndTranslate`
computing `D_i`. -/
def calcDI (m : MeshV) (fuel i : ℕ) (b : BoneV) : Option AT → Option AT
  | none => getD_i m fuel i
  | some dP => pure (AT.mul dP (AT.mul b.T_ij (quatToAT b.R_i)))

/-- `Mesh.calculateD_iAndTranslate(bone, D_parent)` (active revision)
with explicit recursion fuel: like `updateMesh` but without the
`rotation` update. -/
def calculateD_iAndTranslate (m : MeshV) : ℕ → ℕ → Option AT → Option MeshV
  | 0, _, _ => none
  | fuel + 1, i, dp => do
    let b ← m.bones.get? i
    let dI ← calcDI m (fuel + 1) i b dp
    let m' ← goList (fun mm c => calculateD_iAndTranslate mm fuel c (some dI)) m b.children
    let b' ← m'.bones.get? i
    pure ⟨m'.bones.set i
      { b' with
        position := AT.applyPt dI V3.zero
        endpoint := AT.applyPt dI (V3.diff b'.initEndpoint b'.initPosition) }⟩

end MeshV

/-! ### GUI mode / keyframe state machine (`Gui.ts`, active revision) -/

/-- `enum Mode { playback, edit }`. -/
inductive Mode where
  | playback
  | edit
deriving DecidableEq

/-- The GUI state the mode machine and playback scheduler touch: current
mode, playback cursor `time`, and the ordered keyframe list (each
keyframe is the captured bone list). -/
structure GuiState where
  mode : Mode
  time : ℝ
  keyFrames : List (List BoneV)

namespace GuiState

/-- `GUI.getNumKeyFrames()`: `keyFrames.length`. -/
def getNumKeyFrames (g : GuiState) : ℕ := g.keyFrames.length

/-- `GUI.getMaxTime()`: `keyFrames.length - 1`. -/
def getMaxTime (g : GuiState) : ℝ := (g.keyFrames.length : ℝ) - 1

/-- `GUI.incrementTime(dT)`: in playback mode advance the cursor; when it
reaches `getMaxTime()` reset it to 0 and fall back to edit mode. -/
def incrementTime (g : GuiState) (dT : ℝ) : GuiState :=
  if g.mode = Mode.playback then
    let t := g.time + dT
    if t ≥ g.getMaxTime then { g with time := 0, mode := Mode.edit }
    else { g with time := t }
  else g

/-- The `KeyP` branch of `GUI.onKeydown`: edit with at least two
keyframes enters playback at cursor 0; playback returns to edit;
otherwise nothing happens. -/
def onKeyP (g : GuiState) : GuiState :=
  if g.mode = Mode.edit ∧ g.getNumKeyFrames > 1 then
    { g with mode := Mode.playback, time := 0 }
  else if g.mode = Mode.playback then
    { g with mode := Mode.edit }
  else g

/-- Fold of `incrementTime` over a sequence of animation-tick deltas. -/
def applyTicks (g : GuiState) : List ℝ → GuiState
  | [] => g
  | dT :: rest => applyTicks (g.incrementTime dT) rest

/-- JS array access with an integer index: negative or out-of-range
indices yield `undefined` (`none`). -/
def jsGetKF (l : List (List BoneV)) (i : ℤ) : Option (List BoneV) :=
  if 0 ≤ i then l.get? i.toNat else none

/-- The playback branch of `SkinningAnimation.draw`: when the mode is
playback, read the two keyframes at `keyFrame1Index = Math.floor(time)`
and `keyFrame2Index = keyFrame1Index + 1` for interpolation. -/
def drawAccess (g : GuiState) : Option (ℤ × ℤ × List BoneV × List BoneV) :=
  if g.mode = Mode.playback then
    match jsGetKF g.keyFrames ⌊g.time⌋, jsGetKF g.keyFrames (⌊g.time⌋ + 1) with
    | some k1, some k2 => some (⌊g.time⌋, ⌊g.time⌋ + 1, k1, k2)
    | _, _ => none
  else none

end GuiState

/-! ### Picking engine (`Gui.ts` active revision, `drag` + `intersectCilinder`) -/

/-- `RADIUS_BONE` (Gui.ts, active revision). -/
def RADIUS_BONE : ℝ := 0.1

/-- `Number.MAX_VALUE`. -/
def jsMaxValue : ℝ := 1.7976931348623157e308

/-- `Number.MAX_SAFE_INTEGER`, the initial `minT` of the selection scan. -/
def jsMaxSafeInteger : ℝ := 9007199254740991

/-- `GUI.intersectCilinder(pos, dirNotN, dist)` (active revision): solve
the quadratic for the radius-`RADIUS_BONE` cylinder around the local
y-axis, accept a root when its y-coordinate lies in `[0, dist]`, return
the smaller accepted root, `NaN` (`none`) otherwise.  When `a = 0` the JS
divisions produce `NaN`/`Infinity`, both window checks fail and the
function returns `NaN`; this is folded into an explicit `none` branch
(note `a = 0` forces `discriminant = b² ≥ 0`, so the branch order does
not matter). -/
def intersectCilinder (p d0 : V3) (dist : ℝ) : Option ℝ :=
  let d := V3.normalize d0
  let a := d.x * d.x + d.z * d.z
  let b := 2 * (p.x * d.x + p.z * d.z)
  let c := p.x * p.x + p.z * p.z - RADIUS_BONE * RADIUS_BONE
  let disc := b * b - 4 * a * c
  if disc < 0 then none
  else if a = 0 then none
  else
    let t1 := (-b - Real.sqrt disc) / (2 * a)
    let t2 := (-b + Real.sqrt disc) / (2 * a)
    let y1 := p.y + t1 * d.y
    let y2 := p.y + t2 * d.y
    let ans1 := if 0 ≤ y1 ∧ y1 ≤ dist then min jsMaxValue t1 else jsMaxValue
    let ans2 := if 0 ≤ y2 ∧ y2 ≤ dist then min ans1 t2 else ans1
    if ans2 = jsMaxValue then none else some ans2

/-- The per-bone local frame built in `GUI.drag`: normalize the bone
axis, pick the reference vector (world Y unless nearly parallel, else
world X), build the orthonormal triple by cross products, assemble the
TSM column-major `Mat3` and invert it. -/
def boneFrame (b : BoneV) : M3 :=
  let axis := V3.diff b.endpoint b.position
  let tang := V3.normalize axis
  let testRand := V3.dot tang ⟨0, 1, 0⟩
  let rand : V3 := if |testRand| < 0.999 then ⟨0, 1, 0⟩ else ⟨1, 0, 0⟩
  let yv := V3.normalize (V3.cross tang rand)
  let xv := V3.normalize (V3.cross tang yv)
  M3.inv (M3.ofColMajor yv.x yv.y yv.z tang.x tang.y tang.z xv.x xv.y xv.z)

/-- The loop body of the picking pass in `GUI.drag`: transform the ray
into the bone's local frame and run the cylinder test against the bone's
current length. -/
def perBoneIntersect (pos dir : V3) (b : BoneV) : Option ℝ :=
  let dist := V3.distv b.endpoint b.position
  let t := boneFrame b
  let dirT := M3.apply t dir
  let posT := M3.apply t (V3.diff pos b.position)
  intersectCilinder posT dirT dist

/-- The highlight-selection scan of `GUI.drag`: walk the `intersects`
array keeping the last index whose value is not `NaN` and is `≤` the
running minimum (initially `Number.MAX_SAFE_INTEGER`). -/
def pickLoop : List (Option ℝ) → ℕ → Option ℕ → ℝ → Option ℕ × ℝ
  | [], _, hi, mt => (hi, mt)
  | none :: rest, i, hi, mt => pickLoop rest (i + 1) hi mt
  | some v :: rest, i, hi, mt =>
    if v ≤ mt then pickLoop rest (i + 1) (some i) v
    else pickLoop rest (i + 1) hi mt

/-- The `HighlightIndex` produced by the selection scan. -/
def pickIndex (ints : List (Option ℝ)) : Option ℕ :=
  (pickLoop ints 0 none jsMaxSafeInteger).1

/-- The scan sets every bone's `isHighlight` to `false`. -/
def clearHighlights (bones : List BoneV) : List BoneV :=
  bones.map fun b => { b with isHighlight := false }

/-- After the scan, the bone at `HighlightIndex` (when not `NaN`) is
re-marked highlighted. -/
def setHighlightAt (bones : List BoneV) (j : ℕ) : List BoneV :=
  match bones.get? j with
  | some b => bones.set j { b with isHighlight := true }
  | none => bones

/-- The whole `!this.dragging` picking pass of `GUI.drag` (given the
camera position and the unprojected mouse-ray direction, which `drag`
derives from the external camera): compute every bone's intersection,
scan for the highlight index, clear all highlights, then highlight and
select the winner (`selectedBone` stays the `NaN` sentinel, `none`,
otherwise). -/
def dragPick (pos dir : V3) (bones : List BoneV) : List BoneV × Option ℕ :=
  let ints := bones.map (perBoneIntersect pos dir)
  match pickIndex ints with
  | some j => (setHighlightAt (clearHighlights bones) j, some j)
  | none => (clearHighlights bones, none)

/-! ### Spec-side picking predicate (for the refinement comparison)

These definitions follow the spec's words, not the code: a bone is hit
when the unprojected ray meets the bone's radius-`RADIUS_BONE` cylinder
surface at a positive parameter within the finite segment. -/

/-- Following the spec: `t` is a valid positive hit distance of the ray
on the bone's finite cylinder segment (surface crossing of the
local-frame ray, positive parameter, axial coordinate within the bone
length). -/
def SpecBoneHit (pos dir : V3) (b : BoneV) (t : ℝ) : Prop :=
  let dist := V3.distv b.endpoint b.position
  let fr := boneFrame b
  let d := V3.normalize (M3.apply fr dir)
  let p := M3.apply fr (V3.diff pos b.position)
  0 < t ∧ (p.x + t * d.x) ^ 2 + (p.z + t * d.z) ^ 2 = RADIUS_BONE ^ 2 ∧
    0 ≤ p.y + t * d.y ∧ p.y + t * d.y ≤ dist

/-- At most one bone is highlighted. -/
def AtMostOneHighlight (bs : List BoneV) : Prop :=
  ∀ j k bj bk, bs.get? j = some bj → bs.get? k = some bk →
    bj.isHighlight = true → bk.isHighlight = true → j = k

/-- The picking claim in the spec's words: after a pass, at most one
bone is highlighted; if some bone has a valid positive hit the selected
bone is one attaining the globally smallest valid positive hit distance;
if no bone is hit, nothing is highlighted and the selection is cleared. -/
def SpecPickingClaim (pos dir : V3) (bones : List BoneV) : Prop :=
  AtMostOneHighlight (dragPick pos dir bones).1 ∧
  ((∃ k b t, bones.get? k = some b ∧ SpecBoneHit pos dir b t) →
    ∃ j bj tj, (dragPick pos dir bones).2 = some j ∧ bones.get? j = some bj ∧
      SpecBoneHit pos dir bj tj ∧
      ∀ k bk tk, bones.get? k = some bk → SpecBoneHit pos dir bk tk → tj ≤ tk) ∧
  ((¬ ∃ k b t, bones.get? k = some b ∧ SpecBoneHit pos dir b t) →
    (dragPick pos dir bones).2 = none ∧
      ∀ b ∈ (dragPick pos dir bones).1, b.isHighlight = false)

/-! ### Arrow-key handlers (`Gui.ts` active revision, `onKeydown`) -/

/-- `GUI.rotationSpeed`. -/
def rotationSpeed : ℝ := 0.05

/-- JS `mesh.bones[this.selectedBone]` where `selectedBone` may be the
`NaN` no-selection sentinel (`none`): indexing with `NaN` (or out of
range) yields `undefined`. -/
def jsGetBone (bones : List BoneV) (sel : Option ℕ) : Option BoneV :=
  match sel with
  | none => none
  | some i => bones.get? i

/-- The `ArrowLeft` branch of `GUI.onKeydown` (active revision).  The
code computes
`rotationAxis = Vec3.difference(bones[selectedBone].initEndpoint, bones[selectedBone].initPosition)`
BEFORE testing `Number.isNaN(this.selectedBone)`; with no selection the
member access on `undefined` throws a `TypeError`, modelled as
`Except.error`.  The `else` camera-roll branch is therefore unreachable
when the selection is the sentinel. -/
def onKeydownArrowLeft {γ : Type} (roll : γ → γ) (sel : Option ℕ) (m : MeshV)
    (cam : γ) : Except Unit (MeshV × γ) :=
  match jsGetBone m.bones sel with
  | none => Except.error ()
  | some b =>
    let rotationAxis := V3.diff b.initEndpoint b.initPosition
    match sel with
    | some i =>
      let m' := MeshV.meshRotateBone m i rotationAxis rotationSpeed
      match MeshV.updateMesh m' (m'.bones.length + 1) i none with
      | some m'' => Except.ok (m'', cam)
      | none => Except.error ()
    | none => Except.ok (m, roll cam)

/-- The `ArrowRight` branch of `GUI.onKeydown` (active revision): same
shape as `ArrowLeft` with the negated angular step. -/
def onKeydownArrowRight {γ : Type} (roll : γ → γ) (sel : Option ℕ) (m : MeshV)
    (cam : γ) : Except Unit (MeshV × γ) :=
  match jsGetBone m.bones sel with
  | none => Except.error ()
  | some b =>
    let rotationAxis := V3.diff b.initEndpoint b.initPosition
    match sel with
    | some i =>
      let m' := MeshV.meshRotateBone m i rotationAxis (-rotationSpeed)
      match MeshV.updateMesh m' (m'.bones.length + 1) i none with
      | some m'' => Except.ok (m'', cam)
      | none => Except.error ()
    | none => Except.ok (m, roll cam)

/-! ### Object-identity model

JS `Vec3`/`Quat`/`Mat4` objects are mutable heap cells; keyframe
isolation (the `KeyFrame`/`Bone` copy constructor) and bind-pose
immutability are statements about which cells operations share and
write.  A store numbers the cells of each kind; a `BoneR` holds cell
addresses. -/

/-- The object store: one numbered cell list per TSM object kind. -/
structure Store where
  vecs : List V3
  quats : List QuatH
  mats : List AT

namespace Store

/-- Allocate a fresh `Vec3` cell (returns its address). -/
def allocV (s : Store) (v : V3) : Store × ℕ :=
  ({ s with vecs := s.vecs ++ [v] }, s.vecs.length)

/-- Allocate a fresh `Quat` cell. -/
def allocQ (s : Store) (q : QuatH) : Store × ℕ :=
  ({ s with quats := s.quats ++ [q] }, s.quats.length)

/-- Allocate a fresh `Mat4` cell. -/
def allocM (s : Store) (m : AT) : Store × ℕ :=
  ({ s with mats := s.mats ++ [m] }, s.mats.length)

/-- In-place write of a `Mat4` cell (`bone.T_ij.translate(...)` in the
`Mesh` constructor is the only in-place object write the active
revision performs). -/
def setM (s : Store) (a : ℕ) (m : AT) : Store :=
  { s with mats := s.mats.set a m }

end Store

/-- A bone as a JS object: plain fields plus cell addresses for its
`Vec3`/`Quat`/`Mat4` members. -/
structure BoneR where
  parent : ℤ
  children : List ℕ
  position : ℕ
  endpoint : ℕ
  rotation : ℕ
  isHighlight : Bool
  T_ij : ℕ
  R_i : ℕ
  initPosition : ℕ
  initEndpoint : ℕ

/-- The `Bone` constructor on a `BoneLoader` (object level):
`position`/`endpoint`/`rotation` are `.copy()`s of the loader data,
`initPosition`/`initEndpoint` are further copies, `T_ij`/`R_i` are fresh
identity objects. -/
def mkBoneR (s : Store) (lb : BoneLoaderV) : Store × BoneR :=
  let (s1, pA) := s.allocV lb.position
  let (s2, eA) := s1.allocV lb.endpoint
  let (s3, rA) := s2.allocQ lb.rotation
  let (s4, ipA) := s3.allocV lb.position
  let (s5, ieA) := s4.allocV lb.endpoint
  let (s6, tA) := s5.allocM AT.idA
  let (s7, riA) := s6.allocQ QuatH.one
  (s7,
    { parent := lb.parent, children := lb.children, position := pA,
      endpoint := eA, rotation := rA, isHighlight := false, T_ij := tA,
      R_i := riA, initPosition := ipA, initEndpoint := ieA })

/-- The `Bone` copy constructor (the `bone instanceof Bone` branch used
by `KeyFrame`): `position`, `endpoint`, `rotation`, `initPosition` and
`initEndpoint` are deep `.copy()`s, but `T_ij` and `R_i` are the SAME
objects as the source bone's (`this.T_ij = bone.T_ij`,
`this.R_i = bone.R_i`). -/
def copyBoneR (s : Store) (b : BoneR) : Option (Store × BoneR) := do
  let pv ← s.vecs.get? b.position
  let ev ← s.vecs.get? b.endpoint
  let rv ← s.quats.get? b.rotation
  let ipv ← s.vecs.get? b.initPosition
  let iev ← s.vecs.get? b.initEndpoint
  let (s1, pA) := s.allocV pv
  let (s2, eA) := s1.allocV ev
  let (s3, rA) := s2.allocQ rv
  let (s4, ipA) := s3.allocV ipv
  let (s5, ieA) := s4.allocV iev
  pure (s5,
    { parent := b.parent, children := b.children, position := pA,
      endpoint := eA, rotation := rA, isHighlight := false, T_ij := b.T_ij,
      R_i := b.R_i, initPosition := ipA, initEndpoint := ieA })

/-- The `KeyFrame` constructor: push a copy-constructed `Bone` for every
live bone. -/
def captureBones (s : Store) : List BoneR → Option (Store × List BoneR)
  | [] => some (s, [])
  | b :: rest => do
    let (s1, kb) ← copyBoneR s b
    let (s2, kbs) ← captureBones s1 rest
    pure (s2, kb :: kbs)

/-- Pass 1 of the `Mesh` constructor: build each bone from the loader. -/
def mkBonesR (s : Store) : List BoneLoaderV → Store × List BoneR
  | [] => (s, [])
  | lb :: rest =>
    let (s1, b) := mkBoneR s lb
    let (s2, bs) := mkBonesR s1 rest
    (s2, b :: bs)

/-- Pass 2 of the `Mesh` constructor (active revision): per bone,
`translation = initPosition` (a read), or
`Vec3.difference(initPosition, bones[parent].initPosition)` (a fresh
value) for a child, then the in-place write
`bone.T_ij.translate(translation)`.  Only `T_ij` cells are written. -/
def fixPassR (allBones : List BoneR) : Store → List BoneR → Option Store
  | s, [] => some s
  | s, b :: rest => do
    let ipv ← s.vecs.get? b.initPosition
    let translation ←
      if b.parent = -1 then pure ipv
      else do
        let pb ← allBones.get? b.parent.toNat
        let ppv ← s.vecs.get? pb.initPosition
        pure (V3.diff ipv ppv)
    let tv ← s.mats.get? b.T_ij
    fixPassR allBones (s.setM b.T_ij (AT.translate tv translation)) rest

/-- The `Mesh` constructor (object level): both passes. -/
def mkMeshR (s : Store) (lbs : List BoneLoaderV) : Option (Store × List BoneR) :=
  let (s1, bs) := mkBonesR s lbs
  (fixPassR bs s1 bs).map fun s2 => (s2, bs)

/-- `bones[i].rotateBone(axis, angle)` (object level): the bone's `R_i`
field is REBOUND to a fresh object holding the composed rotation
(`this.R_i = Quat.product(this.R_i, ...).copy()`); no existing cell is
written. -/
def rotateBoneR (s : Store) (live : List BoneR) (i : ℕ) (axis : V3)
    (angle : ℝ) : Option (Store × List BoneR) := do
  let b ← live.get? i
  let rv ← s.quats.get? b.R_i
  let (s1, a) := s.allocQ (QuatH.mul rv (QuatH.fromAxisAngle axis angle))
  pure (s1, live.set i { b with R_i := a })

/-- `Mesh.getD_i` at the object level (pure cell reads). -/
def getD_iR (s : Store) (live : List BoneR) : ℕ → ℕ → Option AT
  | 0, _ => none
  | fuel + 1, i => do
    let b ← live.get? i
    let tij ← s.mats.get? b.T_ij
    let ri ← s.quats.get? b.R_i
    if b.parent = -1 then
      pure (AT.mul tij (quatToAT ri))
    else do
      let p ← if 0 ≤ b.parent then some b.parent.toNat else none
      let dP ← getD_iR s live fuel p
      pure (AT.mul dP (AT.mul tij (quatToAT ri)))

/-- `Mesh.getR_i` at the object level (pure cell reads). -/
def getR_iR (s : Store) (live : List BoneR) : ℕ → ℕ → Option QuatH
  | 0, _ => none
  | fuel + 1, i => do
    let b ← live.get? i
    let ri ← s.quats.get? b.R_i
    if b.parent = -1 then
      pure ri
    else do
      let p ← if 0 ≤ b.parent then some b.parent.toNat else none
      let rP ← getR_iR s live fuel p
      pure (QuatH.mul rP ri)

/-- Fallible fold over a child list at the object level. -/
def goListR (f : Store × List BoneR → ℕ → Option (Store × List BoneR)) :
    Store × List BoneR → List ℕ → Option (Store × List BoneR)
  | sl, [] => some sl
  | sl, c :: cs => do
    let sl' ← f sl c
    goListR f sl' cs

/-- The `D_i`/`rotation_i` computation of `updateMesh` at the object
level (pure cell reads). -/
def updateDIHeap (s : Store) (live : List BoneR) (fuel i : ℕ) (tij : AT)
    (ri : QuatH) : Option (AT × QuatH) → Option (AT × QuatH)
  | none => do
    let d ← getD_iR s live fuel i
    let r ← getR_iR s live fuel i
    pure (d, r)
  | some (dP, rP) =>
    pure (AT.mul dP (AT.mul tij (quatToAT ri)), QuatH.mul rP ri)

/-- The `D_i` computation of `calculateD_iAndTranslate` at the object
level (pure cell reads). -/
def calcDIHeap (s : Store) (live : List BoneR) (fuel i : ℕ) (tij : AT)
    (ri : QuatH) : Option AT → Option AT
  | none => getD_iR s live fuel i
  | some dP => pure (AT.mul dP (AT.mul tij (quatToAT ri)))

/-- `Mesh.updateMesh` at the object level: every assignment
(`boneInstance.position = ....copy()` etc.) allocates a fresh cell and
rebinds the field; no existing cell is written. -/
def updateMeshR : ℕ → Store → List BoneR → ℕ → Option (AT × QuatH) →
    Option (Store × List BoneR)
  | 0, _, _, _, _ => none
  | fuel + 1, s, live, i, dp => do
    let b ← live.get? i
    let tij ← s.mats.get? b.T_ij
    let ri ← s.quats.get? b.R_i
    let (dI, rotI) ← updateDIHeap s live (fuel + 1) i tij ri dp
    let sl ← goListR (fun sl c => updateMeshR fuel sl.1 sl.2 c (some (dI, rotI)))
      (s, live) b.children
    let b' ← sl.2.get? i
    let ipv ← sl.1.vecs.get? b'.initPosition
    let iev ← sl.1.vecs.get? b'.initEndpoint
    let (s2, pA) := sl.1.allocV (AT.applyPt dI V3.zero)
    let (s3, eA) := s2.allocV (AT.applyPt dI (V3.diff iev ipv))
    let (s4, rA) := s3.allocQ rotI
    pure (s4, sl.2.set i { b' with position := pA, endpoint := eA, rotation := rA })

/-- `Mesh.calculateD_iAndTranslate` at the object level. -/
def calculateR : ℕ → Store → List BoneR → ℕ → Option AT →
    Option (Store × List BoneR)
  | 0, _, _, _, _ => none
  | fuel + 1, s, live, i, dp => do
    let b ← live.get? i
    let tij ← s.mats.get? b.T_ij
    let ri ← s.quats.get? b.R_i
    let dI ← calcDIHeap s live (fuel + 1) i tij ri dp
    let sl ← goListR (fun sl c => calculateR fuel sl.1 sl.2 c (some dI))
      (s, live) b.children
    let b' ← sl.2.get? i
    let ipv ← sl.1.vecs.get? b'.initPosition
    let iev ← sl.1.vecs.get? b'.initEndpoint
    let (s2, pA) := sl.1.allocV (AT.applyPt dI V3.zero)
    let (s3, eA) := s2.allocV (AT.applyPt dI (V3.diff iev ipv))
    pure (s3, sl.2.set i { b' with position := pA, endpoint := eA })

/-- The per-bone interpolation loop of the playback branch of
`SkinningAnimation.draw`: `bones[i].rotation` and `bones[i].R_i` are
rebound to fresh objects holding `Quat.slerpShort` of the two keyframes'
stored values (`slerp` abstracts the external TSM `slerpShort`). -/
def interpIdxR (slerp : QuatH → QuatH → ℝ → QuatH) (kf1 kf2 : List BoneR)
    (t : ℝ) : Store → List BoneR → List ℕ → Option (Store × List BoneR)
  | s, live, [] => some (s, live)
  | s, live, i :: rest => do
    let b ← live.get? i
    let k1 ← kf1.get? i
    let k2 ← kf2.get? i
    let q1 ← s.quats.get? k1.rotation
    let q2 ← s.quats.get? k2.rotation
    let r1 ← s.quats.get? k1.R_i
    let r2 ← s.quats.get? k2.R_i
    let (s1, rotA) := s.allocQ (slerp q1 q2 t)
    let (s2, riA) := s1.allocQ (slerp r1 r2 t)
    interpIdxR slerp kf1 kf2 t s2 (live.set i { b with rotation := rotA, R_i := riA }) rest

/-- The root loop of the playback branch of `SkinningAnimation.draw`:
`calculateD_iAndTranslate(i, null)` for every root bone. -/
def rootsPassR (fuel : ℕ) : Store → List BoneR → List ℕ →
    Option (Store × List BoneR)
  | s, live, [] => some (s, live)
  | s, live, i :: rest => do
    let b ← live.get? i
    if b.parent = -1 then do
      let (s1, live1) ← calculateR fuel s live i none
      rootsPassR fuel s1 live1 rest
    else
      rootsPassR fuel s live rest

/-- One playback tick acting on the skeleton: interpolate all bones from
two keyframes, then recompute from every root. -/
def tickR (slerp : QuatH → QuatH → ℝ → QuatH) (fuel : ℕ) (s : Store)
    (live kf1 kf2 : List BoneR) (t : ℝ) : Option (Store × List BoneR) := do
  let (s1, live1) ← interpIdxR slerp kf1 kf2 t s live (List.range live.length)
  rootsPassR fuel s1 live1 (List.range live1.length)

/-- Read a bone's object fields back into a value bone. -/
def derefBoneR (s : Store) (b : BoneR) : Option BoneV := do
  let pv ← s.vecs.get? b.position
  let ev ← s.vecs.get? b.endpoint
  let rv ← s.quats.get? b.rotation
  let tv ← s.mats.get? b.T_ij
  let riv ← s.quats.get? b.R_i
  let ipv ← s.vecs.get? b.initPosition
  let iev ← s.vecs.get? b.initEndpoint
  pure
    { parent := b.parent, children := b.children, position := pv,
      endpoint := ev, rotation := rv, isHighlight := b.isHighlight,
      T_ij := tv, R_i := riv, initPosition := ipv, initEndpoint := iev }

/-- Read a whole bone list. -/
def derefBonesR (s : Store) : List BoneR → Option (List BoneV)
  | [] => some []
  | b :: rest => do
    let bv ← derefBoneR s b
    let bvs ← derefBonesR s rest
    pure (bv :: bvs)

/-- The picking pass at the object level: the pass only reads object
cells and writes the bones' plain `isHighlight` fields (the value-level
`dragPick` carries the whole computation). -/
def pickR (pos dir : V3) (s : Store) (live : List BoneR) :
    Option (Store × List BoneR) := do
  let bv ← derefBonesR s live
  let res := dragPick pos dir bv
  pure (s, (live.zip res.1).map fun pr => { pr.1 with isHighlight := pr.2.isHighlight })

/-- The whole mutable state the event handlers touch: the object store,
the live skeleton, and the captured keyframes. -/
structure HState where
  store : Store
  live : List BoneR
  kfs : List (List BoneR)

/-- The mutating operations the claims quantify over: a `rotateBone`
call, an `updateMesh`/`calculateD_iAndTranslate` recompute, a playback
interpolation tick, a picking pass, and a keyframe capture. -/
inductive HOp where
  | rotate (i : ℕ) (axis : V3) (angle : ℝ)
  | update (i : ℕ)
  | calcD (i : ℕ)
  | tick (k1 k2 : ℕ) (t : ℝ)
  | pick (pos dir : V3)
  | capture

/-- Apply one operation to the state. -/
def applyHOp (slerp : QuatH → QuatH → ℝ → QuatH) (st : HState) :
    HOp → Option HState
  | .rotate i axis angle =>
    (rotateBoneR st.store st.live i axis angle).map fun sl =>
      { st with store := sl.1, live := sl.2 }
  | .update i =>
    (updateMeshR (st.live.length + 1) st.store st.live i none).map fun sl =>
      { st with store := sl.1, live := sl.2 }
  | .calcD i =>
    (calculateR (st.live.length + 1) st.store st.live i none).map fun sl =>
      { st with store := sl.1, live := sl.2 }
  | .tick k1 k2 t => do
    let kf1 ← st.kfs.get? k1
    let kf2 ← st.kfs.get? k2
    let sl ← tickR slerp (st.live.length + 1) st.store st.live kf1 kf2 t
    pure { st with store := sl.1, live := sl.2 }
  | .pick pos dir =>
    (pickR pos dir st.store st.live).map fun sl =>
      { st with store := sl.1, live := sl.2 }
  | .capture =>
    (captureBones st.store st.live).map fun sk =>
      { st with store := sk.1, kfs := st.kfs ++ [sk.2] }

/-- Apply a sequence of operations. -/
def applyHOps (slerp : QuatH → QuatH → ℝ → QuatH) (st : HState) :
    List HOp → Option HState
  | [] => some st
  | op :: rest => do
    let st1 ← applyHOp slerp st op
    applyHOps slerp st1 rest

/-- Store extension: every defined cell keeps its value (new cells may
appear).  All operations after the `Mesh` constructor only allocate. -/
def Ext (s s' : Store) : Prop :=
  (∀ a v, s.vecs.get? a = some v → s'.vecs.get? a = some v) ∧
  (∀ a q, s.quats.get? a = some q → s'.quats.get? a = some q) ∧
  (∀ a m, s.mats.get? a = some m → s'.mats.get? a = some m)

/-! ### General list helpers -/

theorem get?_some_lt {α : Type} {l : List α} {i : ℕ} {a : α}
    (h : l.get? i = some a) : i < l.length :=
  (List.get?_eq_some.mp h).choose

theorem get?_set_self {α : Type} {l : List α} {i : ℕ} {a b : α}
    (h : l.get? i = some b) : (l.set i a).get? i = some a := by
  rw [List.get?_set, if_pos rfl, h]
  rfl

/-! ### Claim C5: locality of rotateBone -/

/-- Claim C5: `rotateBone(axis, angle)` replaces the bone's local
rotation by `oldLocal * Quat.fromAxisAngle(axis, angle)` (right
multiplication) and changes no other field of that bone and no field of
any other bone; in particular no descendant's `position`, `endpoint` or
`rotation` is recomputed. -/
theorem c5_rotation_composition (m : MeshV) (i : ℕ) (axis : V3) (angle : ℝ)
    (b : BoneV) (hb : m.bones.get? i = some b) :
    (m.meshRotateBone i axis angle).bones.get? i =
      some { b with R_i := QuatH.mul b.R_i (QuatH.fromAxisAngle axis angle) } ∧
    ∀ j, j ≠ i → (m.meshRotateBone i axis angle).bones.get? j = m.bones.get? j := by
  constructor
  · simp only [MeshV.meshRotateBone, hb]
    exact get?_set_self hb
  · intro j hj
    simp only [MeshV.meshRotateBone, hb]
    exact List.get?_set_ne _ _ fun h => hj h.symm

/-- A concrete loader bone: a root from the origin to `(0,0,2)`. -/
def sampleLoader : BoneLoaderV :=
  { parent := -1, children := [], position := ⟨0, 0, 0⟩,
    endpoint := ⟨0, 0, 2⟩, rotation := QuatH.one }

/-- Witness for C5 at a one-bone skeleton. -/
theorem c5_rotation_composition_witness :
    (MeshV.mk [mkBone sampleLoader]).bones.get? 0 = some (mkBone sampleLoader) ∧
    ((MeshV.mk [mkBone sampleLoader]).meshRotateBone 0 ⟨0, 0, 1⟩ 1).bones.get? 0 =
      some { mkBone sampleLoader with
              R_i := QuatH.mul (mkBone sampleLoader).R_i
                (QuatH.fromAxisAngle ⟨0, 0, 1⟩ 1) } :=
  ⟨rfl, (c5_rotation_composition (MeshV.mk [mkBone sampleLoader]) 0 ⟨0, 0, 1⟩ 1
    (mkBone sampleLoader) rfl).1⟩

/-! ### Claim C6: the Edit/Playback mode machine -/

/-- Claim C6: the `KeyP` toggle enters playback (cursor reset to 0) from
edit exactly when at least two keyframes exist, is a no-op in edit with
fewer, and returns from playback to edit; and `incrementTime` resets the
cursor to 0 and switches back to edit as soon as the advanced cursor
reaches `maxTime = keyframeCount - 1`. -/
theorem c6_mode_machine (g : GuiState) (dT : ℝ) :
    (g.mode = Mode.edit → 2 ≤ g.getNumKeyFrames →
      g.onKeyP = { g with mode := Mode.playback, time := 0 }) ∧
    (g.mode = Mode.edit → g.getNumKeyFrames < 2 → g.onKeyP = g) ∧
    (g.mode = Mode.playback → g.onKeyP = { g with mode := Mode.edit }) ∧
    (g.mode = Mode.playback → g.getMaxTime ≤ g.time + dT →
      g.incrementTime dT = { g with time := 0, mode := Mode.edit }) := by
  refine ⟨fun h1 h2 => ?_, fun h1 h2 => ?_, fun h1 => ?_, fun h1 h2 => ?_⟩
  · rw [GuiState.onKeyP, if_pos ⟨h1, by omega⟩]
  · rw [GuiState.onKeyP, if_neg (fun hc => by omega), if_neg (by simp [h1])]
  · rw [GuiState.onKeyP, if_neg (fun hc => by simp [h1] at hc), if_pos h1]
  · rw [GuiState.incrementTime, if_pos h1, if_pos (by linarith)]

/-- Witness for C6: all four transitions at concrete states. -/
theorem c6_mode_machine_witness :
    (GuiState.mk Mode.edit 5 [[], []]).onKeyP =
      { mode := Mode.playback, time := 0, keyFrames := [[], []] } ∧
    (GuiState.mk Mode.edit 5 [[]]).onKeyP = GuiState.mk Mode.edit 5 [[]] ∧
    (GuiState.mk Mode.playback 3 [[], []]).onKeyP =
      { mode := Mode.edit, time := 3, keyFrames := [[], []] } ∧
    (GuiState.mk Mode.playback 3 [[], []]).incrementTime 7 =
      { mode := Mode.edit, time := 0, keyFrames := [[], []] } :=
  ⟨(c6_mode_machine _ 7).1 rfl (by simp [GuiState.getNumKeyFrames]),
   (c6_mode_machine _ 7).2.1 rfl (by simp [GuiState.getNumKeyFrames]),
   (c6_mode_machine _ 7).2.2.1 rfl,
   (c6_mode_machine _ 7).2.2.2 rfl
     (by norm_num [GuiState.getMaxTime])⟩

/-! ### Claim C7: playback index bounds -/

theorem incrementTime_keyFrames (g : GuiState) (dT : ℝ) :
    (g.incrementTime dT).keyFrames = g.keyFrames := by
  simp only [GuiState.incrementTime]
  split_ifs <;> rfl

theorem applyTicks_keyFrames (l : List ℝ) (g : GuiState) :
    (g.applyTicks l).keyFrames = g.keyFrames := by
  induction l generalizing g with
  | nil => rfl
  | cons d rest ih => rw [GuiState.applyTicks, ih, incrementTime_keyFrames]

/-- One `incrementTime` step preserves the playback invariant: while the
mode stays playback, the cursor remains in `[0, maxTime)`. -/
theorem incrementTime_invariant (g : GuiState) (d : ℝ) (hd : 0 ≤ d)
    (hinv : g.mode = Mode.playback → 0 ≤ g.time ∧ g.time < g.getMaxTime) :
    (g.incrementTime d).mode = Mode.playback →
      0 ≤ (g.incrementTime d).time ∧
      (g.incrementTime d).time < (g.incrementTime d).getMaxTime := by
  simp only [GuiState.incrementTime]
  split_ifs with hp hend
  · intro hm
    exact absurd hm (by simp)
  · intro _
    dsimp only
    refine ⟨by have := (hinv hp).1; linarith, ?_⟩
    have h2 := lt_of_not_ge hend
    simpa [GuiState.getMaxTime] using h2
  · exact fun hm => (hp hm).elim

/-- The playback invariant is preserved along any sequence of
nonnegative-delta ticks. -/
theorem applyTicks_invariant (l : List ℝ) (hpos : ∀ d ∈ l, 0 ≤ d)
    (g : GuiState)
    (hinv : g.mode = Mode.playback → 0 ≤ g.time ∧ g.time < g.getMaxTime) :
    (g.applyTicks l).mode = Mode.playback →
      0 ≤ (g.applyTicks l).time ∧
      (g.applyTicks l).time < (g.applyTicks l).getMaxTime := by
  induction l generalizing g with
  | nil => exact hinv
  | cons d rest ih =>
    rw [GuiState.applyTicks]
    exact ih (fun e he => hpos e (List.mem_cons_of_mem _ he)) _
      (incrementTime_invariant g d (hpos d (List.mem_cons_self _ _)) hinv)

/-- Claim C7: starting playback at cursor 0 with at least two keyframes,
after any sequence of nonnegative-delta `incrementTime` ticks, whenever
the mode is still playback the draw loop's keyframe indices
`i = floor(time)` and `i2 = i + 1` satisfy `0 ≤ i` and
`i2 ≤ keyframeCount - 1`, and both keyframe accesses succeed. -/
theorem c7_playback_index_bounds (g0 : GuiState) (ticks : List ℝ)
    (_hmode : g0.mode = Mode.playback) (htime : g0.time = 0)
    (hkf : 2 ≤ g0.keyFrames.length) (hpos : ∀ d ∈ ticks, 0 ≤ d)
    (hplay : (g0.applyTicks ticks).mode = Mode.playback) :
    0 ≤ ⌊(g0.applyTicks ticks).time⌋ ∧
    ⌊(g0.applyTicks ticks).time⌋ + 1 ≤ ((g0.applyTicks ticks).keyFrames.length : ℤ) - 1 ∧
    ((g0.applyTicks ticks).drawAccess).isSome := by
  have hlen : (g0.applyTicks ticks).keyFrames.length = g0.keyFrames.length := by
    rw [applyTicks_keyFrames]
  have hinv := applyTicks_invariant ticks hpos g0
    (fun _ => by
      constructor
      · rw [htime]
      · rw [htime, GuiState.getMaxTime]
        have : (2 : ℝ) ≤ (g0.keyFrames.length : ℝ) := by exact_mod_cast hkf
        linarith) hplay
  have h0 : (0 : ℤ) ≤ ⌊(g0.applyTicks ticks).time⌋ := Int.floor_nonneg.mpr hinv.1
  have hup : ⌊(g0.applyTicks ticks).time⌋ < ((g0.applyTicks ticks).keyFrames.length : ℤ) - 1 := by
    apply Int.floor_lt.mpr
    have := hinv.2
    rw [GuiState.getMaxTime] at this
    push_cast
    linarith
  refine ⟨h0, Int.lt_iff_add_one_le.mp hup, ?_⟩
  rw [GuiState.drawAccess, if_pos hplay]
  have hlen2 : 2 ≤ (g0.applyTicks ticks).keyFrames.length := by omega
  have hi1 : GuiState.jsGetKF (g0.applyTicks ticks).keyFrames
      ⌊(g0.applyTicks ticks).time⌋ ≠ none := by
    rw [GuiState.jsGetKF, if_pos h0]
    intro hnone
    have := List.get?_eq_none.mp hnone
    have htn : (⌊(g0.applyTicks ticks).time⌋.toNat : ℤ) = ⌊(g0.applyTicks ticks).time⌋ :=
      Int.toNat_of_nonneg h0
    omega
  have hi2 : GuiState.jsGetKF (g0.applyTicks ticks).keyFrames
      (⌊(g0.applyTicks ticks).time⌋ + 1) ≠ none := by
    rw [GuiState.jsGetKF, if_pos (by omega)]
    intro hnone
    have := List.get?_eq_none.mp hnone
    have htn : ((⌊(g0.applyTicks ticks).time⌋ + 1).toNat : ℤ) =
        ⌊(g0.applyTicks ticks).time⌋ + 1 := Int.toNat_of_nonneg (by omega)
    omega
  obtain ⟨k1, hk1⟩ := Option.ne_none_iff_exists'.mp hi1
  obtain ⟨k2, hk2⟩ := Option.ne_none_iff_exists'.mp hi2
  rw [hk1, hk2]
  rfl

/-- Witness for C7: a two-keyframe playback state after a half-second
tick. -/
theorem c7_playback_index_bounds_witness :
    (GuiState.mk Mode.playback 0 [[], []]).applyTicks [1/2] =
      GuiState.mk Mode.playback (1/2) [[], []] ∧
    0 ≤ ⌊((GuiState.mk Mode.playback 0 [[], []]).applyTicks [1/2]).time⌋ ∧
    ⌊((GuiState.mk Mode.playback 0 [[], []]).applyTicks [1/2]).time⌋ + 1 ≤
      (((GuiState.mk Mode.playback 0 [[], []]).applyTicks [1/2]).keyFrames.length : ℤ) - 1 ∧
    (((GuiState.mk Mode.playback 0 [[], []]).applyTicks [1/2]).drawAccess).isSome := by
  have hstate : (GuiState.mk Mode.playback 0 [[], []]).applyTicks [1/2] =
      GuiState.mk Mode.playback (1/2) [[], []] := by
    rw [GuiState.applyTicks, GuiState.applyTicks, GuiState.incrementTime]
    rw [if_pos rfl, if_neg (by norm_num [GuiState.getMaxTime])]
    norm_num
  have h := c7_playback_index_bounds (GuiState.mk Mode.playback 0 [[], []]) [1/2]
    rfl rfl (by simp)
    (by intro d hd; rw [List.mem_singleton] at hd; rw [hd]; norm_num)
    (by rw [hstate])
  exact ⟨hstate, h⟩

/-! ### Claim C3: the no-selection sentinel on the arrow-key handlers -/

/-- Claim C3 fails on the code: with the `NaN` no-selection sentinel the
`ArrowLeft` and `ArrowRight` handlers evaluate
`mesh.bones[this.selectedBone].initEndpoint` BEFORE the
`Number.isNaN(this.selectedBone)` guard, so indexing with `NaN` yields
`undefined` and the member access throws a `TypeError` instead of
no-opping/falling back to the camera roll. -/
theorem c3_noselection_throws {γ : Type} (roll : γ → γ) (m : MeshV) (cam : γ) :
    onKeydownArrowLeft roll none m cam = Except.error () ∧
    onKeydownArrowRight roll none m cam = Except.error () :=
  ⟨rfl, rfl⟩

/-! ### Forest shape and termination of the hierarchy recursions -/

/-- The skeleton's `parent`/`children` indices form a finite forest of
rooted trees, witnessed by a depth function: every bone is a root or has
an in-range parent of smaller depth, children are in range with larger
depth (consistent with the parent links), and depth is bounded by the
bone count. -/
def Forest (m : MeshV) (d : ℕ → ℕ) : Prop :=
  (∀ i b, m.bones.get? i = some b →
    (b.parent = -1 ∨ ∃ p : ℕ, b.parent = (p : ℤ) ∧ p < m.bones.length ∧ d p < d i) ∧
    ∀ c ∈ b.children, c < m.bones.length ∧ d i < d c) ∧
  ∀ i, i < m.bones.length → d i < m.bones.length

theorem bind_some_vm {α β : Type} (a : α) (f : α → Option β) :
    (do let b ← some a; f b) = f a := rfl

theorem pure_bind_vm {α β : Type} (a : α) (f : α → Option β) :
    (do let b ← (pure a : Option α); f b) = f a := rfl

theorem getU_i_total {m : MeshV} {d : ℕ → ℕ} (hf : Forest m d) :
    ∀ fuel i, i < m.bones.length → d i < fuel → (m.getU_i fuel i).isSome := by
  intro fuel
  induction fuel with
  | zero => intro i _ h; omega
  | succ k ih =>
    intro i hi hd
    have hb := List.get?_eq_get hi
    simp only [MeshV.getU_i]
    rw [hb, bind_some_vm]
    rcases (hf.1 i _ hb).1 with hroot | ⟨p, hp, hplen, hpd⟩
    · rw [if_pos hroot]; rfl
    · rw [if_neg (by rw [hp]; exact fun h => by omega)]
      have hpidx : MeshV.parentIdx (m.bones.get ⟨i, hi⟩) = some p := by
        rw [MeshV.parentIdx, if_pos (by rw [hp]; positivity), hp]
        simp
      rw [hpidx, bind_some_vm]
      obtain ⟨u, hu⟩ := Option.isSome_iff_exists.mp (ih p hplen (by omega))
      rw [hu, bind_some_vm]
      rfl

theorem getD_i_total {m : MeshV} {d : ℕ → ℕ} (hf : Forest m d) :
    ∀ fuel i, i < m.bones.length → d i < fuel → (m.getD_i fuel i).isSome := by
  intro fuel
  induction fuel with
  | zero => intro i _ h; omega
  | succ k ih =>
    intro i hi hd
    have hb := List.get?_eq_get hi
    simp only [MeshV.getD_i]
    rw [hb, bind_some_vm]
    rcases (hf.1 i _ hb).1 with hroot | ⟨p, hp, hplen, hpd⟩
    · rw [if_pos hroot]; rfl
    · rw [if_neg (by rw [hp]; exact fun h => by omega)]
      have hpidx : MeshV.parentIdx (m.bones.get ⟨i, hi⟩) = some p := by
        rw [MeshV.parentIdx, if_pos (by rw [hp]; positivity), hp]
        simp
      rw [hpidx, bind_some_vm]
      obtain ⟨u, hu⟩ := Option.isSome_iff_exists.mp (ih p hplen (by omega))
      rw [hu, bind_some_vm]
      rfl

theorem getR_i_total {m : MeshV} {d : ℕ → ℕ} (hf : Forest m d) :
    ∀ fuel i, i < m.bones.length → d i < fuel → (m.getR_i fuel i).isSome := by
  intro fuel
  induction fuel with
  | zero => intro i _ h; omega
  | succ k ih =>
    intro i hi hd
    have hb := List.get?_eq_get hi
    simp only [MeshV.getR_i]
    rw [hb, bind_some_vm]
    rcases (hf.1 i _ hb).1 with hroot | ⟨p, hp, hplen, hpd⟩
    · rw [if_pos hroot]; rfl
    · rw [if_neg (by rw [hp]; exact fun h => by omega)]
      have hpidx : MeshV.parentIdx (m.bones.get ⟨i, hi⟩) = some p := by
        rw [MeshV.parentIdx, if_pos (by rw [hp]; positivity), hp]
        simp
      rw [hpidx, bind_some_vm]
      obtain ⟨u, hu⟩ := Option.isSome_iff_exists.mp (ih p hplen (by omega))
      rw [hu, bind_some_vm]
      rfl

/-- Two meshes with the same skeleton structure: equal length and, per
bone, equal `parent`, `children`, `T_ij`, `R_i` and bind-pose fields
(`updateMesh` and `calculateD_iAndTranslate` only write `position`,
`endpoint` and `rotation`). -/
def SameSkeleton (m m' : MeshV) : Prop :=
  m'.bones.length = m.bones.length ∧
  ∀ i b, m.bones.get? i = some b → ∃ b', m'.bones.get? i = some b' ∧
    b'.parent = b.parent ∧ b'.children = b.children ∧ b'.T_ij = b.T_ij ∧
    b'.R_i = b.R_i ∧ b'.initPosition = b.initPosition ∧ b'.initEndpoint = b.initEndpoint

theorem sameSkeleton_refl (m : MeshV) : SameSkeleton m m :=
  ⟨rfl, fun _ b hb => ⟨b, hb, rfl, rfl, rfl, rfl, rfl, rfl⟩⟩

theorem sameSkeleton_trans {m1 m2 m3 : MeshV} (h12 : SameSkeleton m1 m2)
    (h23 : SameSkeleton m2 m3) : SameSkeleton m1 m3 := by
  refine ⟨h23.1.trans h12.1, fun i b hb => ?_⟩
  obtain ⟨b2, hb2, e1, e2, e3, e4, e5, e6⟩ := h12.2 i b hb
  obtain ⟨b3, hb3, f1, f2, f3, f4, f5, f6⟩ := h23.2 i b2 hb2
  exact ⟨b3, hb3, f1.trans e1, f2.trans e2, f3.trans e3, f4.trans e4,
    f5.trans e5, f6.trans e6⟩

theorem sameSkeleton_set {m : MeshV} {i : ℕ} {b b' : BoneV}
    (hb : m.bones.get? i = some b)
    (hp : b'.parent = b.parent) (hc : b'.children = b.children)
    (ht : b'.T_ij = b.T_ij) (hr : b'.R_i = b.R_i)
    (hip : b'.initPosition = b.initPosition)
    (hie : b'.initEndpoint = b.initEndpoint) :
    SameSkeleton m ⟨m.bones.set i b'⟩ := by
  refine ⟨by simp, fun j bj hbj => ?_⟩
  by_cases hij : i = j
  · subst hij
    rw [hb] at hbj
    injection hbj with hbj
    subst hbj
    exact ⟨b', get?_set_self hb, hp, hc, ht, hr, hip, hie⟩
  · exact ⟨bj, by rw [List.get?_set_ne _ _ hij]; exact hbj, rfl, rfl, rfl, rfl, rfl, rfl⟩

/-- The forest witness transfers along `SameSkeleton`. -/
theorem forest_of_sameSkeleton {m m' : MeshV} {d : ℕ → ℕ}
    (h : SameSkeleton m m') (hf : Forest m d) : Forest m' d := by
  have hlen := h.1
  constructor
  · intro i b' hb'
    have hi' : i < m'.bones.length := get?_some_lt hb'
    have hi : i < m.bones.length := by omega
    have hb := List.get?_eq_get hi
    obtain ⟨b2, hb2, e1, e2, _, _, _, _⟩ := h.2 i _ hb
    rw [hb'] at hb2
    injection hb2 with hb2
    subst hb2
    have hcond := hf.1 i _ hb
    constructor
    · rw [e1]
      rcases hcond.1 with hroot | ⟨p, hp1, hp2, hp3⟩
      · exact Or.inl hroot
      · exact Or.inr ⟨p, hp1, by omega, hp3⟩
    · intro c hc
      have := hcond.2 c (by rw [← e2]; exact hc)
      exact ⟨by omega, this.2⟩
  · intro i hi
    have := hf.2 i (by omega)
    omega

/-- Totality of the `D_i`/`rotation_i` computation. -/
theorem updateDI_total {m : MeshV} {d : ℕ → ℕ} (hf : Forest m d)
    {fuel i : ℕ} (b : BoneV) (hi : i < m.bones.length) :
    ∀ dp, (dp = none → d i < fuel) → (MeshV.updateDI m fuel i b dp).isSome := by
  intro dp hdp
  rcases dp with _ | ⟨dP, rP⟩
  · obtain ⟨dd, hdd⟩ := Option.isSome_iff_exists.mp (getD_i_total hf fuel i hi (hdp rfl))
    obtain ⟨rr, hrr⟩ := Option.isSome_iff_exists.mp (getR_i_total hf fuel i hi (hdp rfl))
    simp only [MeshV.updateDI]
    rw [hdd, bind_some_vm, hrr, bind_some_vm]
    rfl
  · rfl

/-- Totality of the `D_i` computation of `calculateD_iAndTranslate`. -/
theorem calcDI_total {m : MeshV} {d : ℕ → ℕ} (hf : Forest m d)
    {fuel i : ℕ} (b : BoneV) (hi : i < m.bones.length) :
    ∀ dp, (dp = none → d i < fuel) → (MeshV.calcDI m fuel i b dp).isSome := by
  intro dp hdp
  rcases dp with _ | dP
  · exact getD_i_total hf fuel i hi (hdp rfl)
  · rfl

/-- `updateMesh` only writes `position`, `endpoint` and `rotation`. -/
theorem updateMesh_sameSkeleton :
    ∀ fuel (m : MeshV) i dp m', MeshV.updateMesh m fuel i dp = some m' →
      SameSkeleton m m' := by
  intro fuel
  induction fuel with
  | zero => intro m i dp m' h; simp [MeshV.updateMesh] at h
  | succ k ih =>
    have hgo : ∀ (dI : AT) (rotI : QuatH) cs (m0 m1 : MeshV),
        MeshV.goList (fun mm c => MeshV.updateMesh mm k c (some (dI, rotI))) m0 cs = some m1 →
        SameSkeleton m0 m1 := by
      intro dI rotI cs
      induction cs with
      | nil =>
        intro m0 m1 h
        simp only [MeshV.goList] at h
        injection h with h
        subst h
        exact sameSkeleton_refl m0
      | cons c cs' ihc =>
        intro m0 m1 h
        simp only [MeshV.goList] at h
        obtain ⟨m2, hm2, hrest⟩ := Option.bind_eq_some.mp h
        exact sameSkeleton_trans (ih m0 c _ m2 hm2) (ihc m2 m1 hrest)
    intro m i dp m' h
    simp only [MeshV.updateMesh] at h
    obtain ⟨b, hb, h⟩ := Option.bind_eq_some.mp h
    obtain ⟨y, _, h⟩ := Option.bind_eq_some.mp h
    obtain ⟨m1, hm1, h⟩ := Option.bind_eq_some.mp h
    obtain ⟨b', hb', h⟩ := Option.bind_eq_some.mp h
    injection h with h
    subst h
    exact sameSkeleton_trans (hgo y.1 y.2 _ m m1 hm1)
      (sameSkeleton_set hb' rfl rfl rfl rfl rfl rfl)

/-- `SameSkeleton` along a child fold of `updateMesh`. -/
theorem goListUpdate_sameSkeleton (k : ℕ) (dI : AT) (rotI : QuatH) :
    ∀ cs (m0 m1 : MeshV),
      MeshV.goList (fun mm c => MeshV.updateMesh mm k c (some (dI, rotI))) m0 cs = some m1 →
      SameSkeleton m0 m1 := by
  intro cs
  induction cs with
  | nil =>
    intro m0 m1 h
    simp only [MeshV.goList] at h
    injection h with h
    subst h
    exact sameSkeleton_refl m0
  | cons c cs' ihc =>
    intro m0 m1 h
    simp only [MeshV.goList] at h
    obtain ⟨m2, hm2, hrest⟩ := Option.bind_eq_some.mp h
    exact sameSkeleton_trans (updateMesh_sameSkeleton k m0 c _ m2 hm2) (ihc m2 m1 hrest)

/-- `updateMesh` terminates on forests: fuel `n - d i` suffices for
recursive calls and `n + 1` for the top-level call. -/
theorem updateMesh_total {d : ℕ → ℕ} :
    ∀ fuel (m : MeshV) i dp, Forest m d → i < m.bones.length →
      m.bones.length ≤ fuel + d i → (dp = none → d i < fuel) →
      (MeshV.updateMesh m fuel i dp).isSome := by
  intro fuel
  induction fuel with
  | zero =>
    intro m i dp hf hi hle _
    have := hf.2 i hi
    omega
  | succ k ih =>
    intro m i dp hf hi hle hdp
    have hb := List.get?_eq_get hi
    have hgo : ∀ (dI : AT) (rotI : QuatH) cs (m0 : MeshV),
        Forest m0 d → m0.bones.length = m.bones.length →
        (∀ c ∈ cs, c < m.bones.length ∧ d i < d c) →
        (MeshV.goList (fun mm c => MeshV.updateMesh mm k c (some (dI, rotI))) m0 cs).isSome := by
      intro dI rotI cs
      induction cs with
      | nil => intro m0 _ _ _; rfl
      | cons c cs' ihc =>
        intro m0 hf0 hlen0 hcs
        have hc := hcs c (List.mem_cons_self _ _)
        have h1 : (MeshV.updateMesh m0 k c (some (dI, rotI))).isSome :=
          ih m0 c (some (dI, rotI)) hf0 (by omega) (by omega) (fun hh => by cases hh)
        obtain ⟨m1, hm1⟩ := Option.isSome_iff_exists.mp h1
        simp only [MeshV.goList]
        rw [hm1, bind_some_vm]
        have hss := updateMesh_sameSkeleton k m0 c (some (dI, rotI)) m1 hm1
        exact ihc m1 (forest_of_sameSkeleton hss hf0) (hss.1.trans hlen0)
          (fun c' hc' => hcs c' (List.mem_cons_of_mem _ hc'))
    have hkids := fun c hc => (hf.1 i _ hb).2 c hc
    simp only [MeshV.updateMesh]
    rw [hb, bind_some_vm]
    obtain ⟨y, hy⟩ := Option.isSome_iff_exists.mp
      (updateDI_total hf (m.bones.get ⟨i, hi⟩) hi dp (fun he => by subst he; exact hdp rfl))
    rw [hy, bind_some_vm]
    obtain ⟨m1, hm1⟩ := Option.isSome_iff_exists.mp
      (hgo y.1 y.2 _ m hf rfl hkids)
    rw [hm1, bind_some_vm]
    have hlen1 := (goListUpdate_sameSkeleton k y.1 y.2 _ m m1 hm1).1
    have hb' := List.get?_eq_get (show i < m1.bones.length by omega)
    rw [hb', bind_some_vm]
    rfl

/-- `calculateD_iAndTranslate` only writes `position` and `endpoint`. -/
theorem calculate_sameSkeleton :
    ∀ fuel (m : MeshV) i dp m', MeshV.calculateD_iAndTranslate m fuel i dp = some m' →
      SameSkeleton m m' := by
  intro fuel
  induction fuel with
  | zero => intro m i dp m' h; simp [MeshV.calculateD_iAndTranslate] at h
  | succ k ih =>
    have hgo : ∀ (dI : AT) cs (m0 m1 : MeshV),
        MeshV.goList (fun mm c => MeshV.calculateD_iAndTranslate mm k c (some dI)) m0 cs = some m1 →
        SameSkeleton m0 m1 := by
      intro dI cs
      induction cs with
      | nil =>
        intro m0 m1 h
        simp only [MeshV.goList] at h
        injection h with h
        subst h
        exact sameSkeleton_refl m0
      | cons c cs' ihc =>
        intro m0 m1 h
        simp only [MeshV.goList] at h
        obtain ⟨m2, hm2, hrest⟩ := Option.bind_eq_some.mp h
        exact sameSkeleton_trans (ih m0 c _ m2 hm2) (ihc m2 m1 hrest)
    intro m i dp m' h
    simp only [MeshV.calculateD_iAndTranslate] at h
    obtain ⟨b, hb, h⟩ := Option.bind_eq_some.mp h
    obtain ⟨y, _, h⟩ := Option.bind_eq_some.mp h
    obtain ⟨m1, hm1, h⟩ := Option.bind_eq_some.mp h
    obtain ⟨b', hb', h⟩ := Option.bind_eq_some.mp h
    injection h with h
    subst h
    exact sameSkeleton_trans (hgo y _ m m1 hm1)
      (sameSkeleton_set hb' rfl rfl rfl rfl rfl rfl)

/-- `SameSkeleton` along a child fold of `calculateD_iAndTranslate`. -/
theorem goListCalculate_sameSkeleton (k : ℕ) (dI : AT) :
    ∀ cs (m0 m1 : MeshV),
      MeshV.goList (fun mm c => MeshV.calculateD_iAndTranslate mm k c (some dI)) m0 cs = some m1 →
      SameSkeleton m0 m1 := by
  intro cs
  induction cs with
  | nil =>
    intro m0 m1 h
    simp only [MeshV.goList] at h
    injection h with h
    subst h
    exact sameSkeleton_refl m0
  | cons c cs' ihc =>
    intro m0 m1 h
    simp only [MeshV.goList] at h
    obtain ⟨m2, hm2, hrest⟩ := Option.bind_eq_some.mp h
    exact sameSkeleton_trans (calculate_sameSkeleton k m0 c _ m2 hm2) (ihc m2 m1 hrest)

/-- `calculateD_iAndTranslate` terminates on forests. -/
theorem calculate_total {d : ℕ → ℕ} :
    ∀ fuel (m : MeshV) i dp, Forest m d → i < m.bones.length →
      m.bones.length ≤ fuel + d i → (dp = none → d i < fuel) →
      (MeshV.calculateD_iAndTranslate m fuel i dp).isSome := by
  intro fuel
  induction fuel with
  | zero =>
    intro m i dp hf hi hle _
    have := hf.2 i hi
    omega
  | succ k ih =>
    intro m i dp hf hi hle hdp
    have hb := List.get?_eq_get hi
    have hgo : ∀ (dI : AT) cs (m0 : MeshV),
        Forest m0 d → m0.bones.length = m.bones.length →
        (∀ c ∈ cs, c < m.bones.length ∧ d i < d c) →
        (MeshV.goList (fun mm c => MeshV.calculateD_iAndTranslate mm k c (some dI)) m0 cs).isSome := by
      intro dI cs
      induction cs with
      | nil => intro m0 _ _ _; rfl
      | cons c cs' ihc =>
        intro m0 hf0 hlen0 hcs
        have hc := hcs c (List.mem_cons_self _ _)
        have h1 : (MeshV.calculateD_iAndTranslate m0 k c (some dI)).isSome :=
          ih m0 c (some dI) hf0 (by omega) (by omega) (fun hh => by cases hh)
        obtain ⟨m1, hm1⟩ := Option.isSome_iff_exists.mp h1
        simp only [MeshV.goList]
        rw [hm1, bind_some_vm]
        have hss := calculate_sameSkeleton k m0 c (some dI) m1 hm1
        exact ihc m1 (forest_of_sameSkeleton hss hf0) (hss.1.trans hlen0)
          (fun c' hc' => hcs c' (List.mem_cons_of_mem _ hc'))
    have hkids := fun c hc => (hf.1 i _ hb).2 c hc
    simp only [MeshV.calculateD_iAndTranslate]
    rw [hb, bind_some_vm]
    obtain ⟨y, hy⟩ := Option.isSome_iff_exists.mp
      (calcDI_total hf (m.bones.get ⟨i, hi⟩) hi dp (fun he => by subst he; exact hdp rfl))
    rw [hy, bind_some_vm]
    obtain ⟨m1, hm1⟩ := Option.isSome_iff_exists.mp
      (hgo y _ m hf rfl hkids)
    rw [hm1, bind_some_vm]
    have hlen1 := (goListCalculate_sameSkeleton k y _ m m1 hm1).1
    have hb' := List.get?_eq_get (show i < m1.bones.length by omega)
    rw [hb', bind_some_vm]
    rfl

/-- Claim C10: on a skeleton whose parent/children indices form a finite
forest of rooted trees, the recursive functions `getU_i`, `getD_i`,
`getR_i`, `updateMesh` and `calculateD_iAndTranslate` terminate on every
bone index (the fuel `n` resp. `n + 1`, where `n` is the bone count,
always suffices). -/
theorem c10_hierarchy_termination (m : MeshV) (d : ℕ → ℕ) (hf : Forest m d)
    (i : ℕ) (hi : i < m.bones.length) :
    (m.getU_i m.bones.length i).isSome ∧
    (m.getD_i m.bones.length i).isSome ∧
    (m.getR_i m.bones.length i).isSome ∧
    (MeshV.updateMesh m (m.bones.length + 1) i none).isSome ∧
    (MeshV.calculateD_iAndTranslate m (m.bones.length + 1) i none).isSome := by
  have hd := hf.2 i hi
  exact ⟨getU_i_total hf _ i hi hd, getD_i_total hf _ i hi hd,
    getR_i_total hf _ i hi hd,
    updateMesh_total _ m i none hf hi (by omega) (fun _ => by omega),
    calculate_total _ m i none hf hi (by omega) (fun _ => by omega)⟩

/-- Witness for C10 on a one-bone skeleton. -/
theorem c10_hierarchy_termination_witness :
    Forest (MeshV.mk [mkBone sampleLoader]) (fun _ => 0) ∧
    ((MeshV.mk [mkBone sampleLoader]).getD_i 1 0).isSome ∧
    (MeshV.updateMesh (MeshV.mk [mkBone sampleLoader]) 2 0 none).isSome := by
  have hf : Forest (MeshV.mk [mkBone sampleLoader]) (fun _ => 0) := by
    constructor
    · intro i b hb
      rcases i with _ | j
      · rw [show (MeshV.mk [mkBone sampleLoader]).bones.get? 0 =
            some (mkBone sampleLoader) from rfl] at hb
        injection hb with hb
        subst hb
        exact ⟨Or.inl rfl, fun c hc => by simp [mkBone, sampleLoader] at hc⟩
      · rw [show (MeshV.mk [mkBone sampleLoader]).bones.get? (j + 1) = none from rfl] at hb
        cases hb
    · intro i hi
      simp
  have h := c10_hierarchy_termination (MeshV.mk [mkBone sampleLoader])
    (fun _ => 0) hf 0 (by simp)
  exact ⟨hf, h.2.1, h.2.2.2.1⟩

/-! ### Rigidity of the bone transforms (towards claim C4) -/

/-- A linear part that preserves squared norms. -/
def IsoM3 (L : M3) : Prop := ∀ v, V3.normSq (M3.apply L v) = V3.normSq v

theorem isoM3_id : IsoM3 M3.id3 := by
  intro v
  simp only [M3.apply, M3.id3, V3.normSq]
  ring

theorem m3_mul_apply (L N : M3) (v : V3) :
    M3.apply (M3.mul L N) v = M3.apply L (M3.apply N v) := by
  ext <;> simp only [M3.apply, M3.mul] <;> ring

theorem isoM3_mul {L N : M3} (hL : IsoM3 L) (hN : IsoM3 N) :
    IsoM3 (M3.mul L N) := by
  intro v
  rw [m3_mul_apply, hL, hN]

/-- The rotation block of a unit quaternion preserves squared norms. -/
theorem quatToM3_iso {q : QuatH} (hq : q.IsUnit) : IsoM3 (quatToM3 q) := by
  intro v
  have hs : q.x * q.x + q.y * q.y + q.z * q.z + q.w * q.w = 1 := hq
  simp only [quatToM3, M3.apply, V3.normSq]
  linear_combination (4 * ((q.y * v.x - q.x * v.y) ^ 2 + (q.z * v.x - q.x * v.z) ^ 2 +
    (q.z * v.y - q.y * v.z) ^ 2)) * hs

theorem at_mul_lin (p q : AT) : (AT.mul p q).lin = M3.mul p.lin q.lin := rfl

theorem at_translate_lin (m : AT) (v : V3) : (AT.translate m v).lin = m.lin := by
  show M3.mul m.lin M3.id3 = m.lin
  ext <;> simp only [M3.mul, M3.id3] <;> ring

/-- Every bone's accumulated local rotation is a unit quaternion. -/
def UnitLocals (m : MeshV) : Prop :=
  ∀ i b, m.bones.get? i = some b → QuatH.IsUnit b.R_i

/-- Every bone's `T_ij` is a pure translation (identity linear part), as
established by the `Mesh` constructor. -/
def IdentityLinT (m : MeshV) : Prop :=
  ∀ i b, m.bones.get? i = some b → b.T_ij.lin = M3.id3

theorem unitLocals_of_sameSkeleton {m m' : MeshV} (h : SameSkeleton m m')
    (hu : UnitLocals m) : UnitLocals m' := by
  intro i b' hb'
  have hi' := get?_some_lt hb'
  have hi : i < m.bones.length := by have := h.1; omega
  have hb := List.get?_eq_get hi
  obtain ⟨b2, hb2, _, _, _, e4, _, _⟩ := h.2 i _ hb
  rw [hb'] at hb2
  injection hb2 with hb2
  subst hb2
  rw [QuatH.IsUnit, e4]
  exact hu i _ hb

theorem identityLinT_of_sameSkeleton {m m' : MeshV} (h : SameSkeleton m m')
    (ht : IdentityLinT m) : IdentityLinT m' := by
  intro i b' hb'
  have hi' := get?_some_lt hb'
  have hi : i < m.bones.length := by have := h.1; omega
  have hb := List.get?_eq_get hi
  obtain ⟨b2, hb2, _, _, e3, _, _, _⟩ := h.2 i _ hb
  rw [hb'] at hb2
  injection hb2 with hb2
  subst hb2
  rw [e3]
  exact ht i _ hb

/-- A rigid recursive parent state. -/
def RigidDP : Option (AT × QuatH) → Prop
  | none => True
  | some (dP, _) => IsoM3 dP.lin

/-- Whenever `getD_i` succeeds on a skeleton with unit local rotations
and pure-translation `T_ij`, its linear part preserves squared norms. -/
theorem getD_i_iso {m : MeshV} (hu : UnitLocals m) (ht : IdentityLinT m) :
    ∀ fuel i dI, m.getD_i fuel i = some dI → IsoM3 dI.lin := by
  intro fuel
  induction fuel with
  | zero => intro i dI h; simp [MeshV.getD_i] at h
  | succ k ih =>
    intro i dI h
    simp only [MeshV.getD_i] at h
    obtain ⟨b, hb, h⟩ := Option.bind_eq_some.mp h
    by_cases hroot : b.parent = -1
    · rw [if_pos hroot] at h
      injection h with h
      subst h
      rw [IsoM3, at_mul_lin, ht i b hb]
      exact isoM3_mul isoM3_id (quatToM3_iso (hu i b hb))
    · rw [if_neg hroot] at h
      obtain ⟨p, _, h⟩ := Option.bind_eq_some.mp h
      obtain ⟨dP, hdP, h⟩ := Option.bind_eq_some.mp h
      injection h with h
      subst h
      rw [IsoM3, at_mul_lin, at_mul_lin, ht i b hb]
      exact isoM3_mul (ih p dP hdP) (isoM3_mul isoM3_id (quatToM3_iso (hu i b hb)))

theorem normSq_diff_comm (a b : V3) :
    V3.normSq (V3.diff a b) = V3.normSq (V3.diff b a) := by
  simp only [V3.normSq, V3.diff]
  ring

theorem diff_applyPt (t : AT) (v : V3) :
    V3.diff (AT.applyPt t v) (AT.applyPt t V3.zero) = M3.apply t.lin v := by
  ext <;> simp only [AT.applyPt, M3.apply, V3.diff, V3.add, V3.zero] <;> ring

/-- The bone-length invariant, in squared form. -/
def BoneLenInvSq (b : BoneV) : Prop :=
  V3.normSq (V3.diff b.position b.endpoint) =
    V3.normSq (V3.diff b.initPosition b.initEndpoint)

/-- After a successful `updateMesh` on a skeleton with unit local
rotations, pure-translation `T_ij` and a rigid parent state, every bone
is either untouched or satisfies the squared bone-length invariant
(because `position` and `endpoint` are the world transform applied to
the origin and to the bind-pose bone vector). -/
theorem updateMesh_lenInv :
    ∀ fuel (m : MeshV) i dp m', UnitLocals m → IdentityLinT m → RigidDP dp →
      MeshV.updateMesh m fuel i dp = some m' →
      ∀ j b', m'.bones.get? j = some b' →
        m.bones.get? j = some b' ∨ BoneLenInvSq b' := by
  intro fuel
  induction fuel with
  | zero => intro m i dp m' _ _ _ h; simp [MeshV.updateMesh] at h
  | succ k ih =>
    have hgo : ∀ (dI : AT) (rotI : QuatH), IsoM3 dI.lin →
        ∀ cs (m0 m1 : MeshV), UnitLocals m0 → IdentityLinT m0 →
        MeshV.goList (fun mm c => MeshV.updateMesh mm k c (some (dI, rotI))) m0 cs = some m1 →
        ∀ j b', m1.bones.get? j = some b' →
          m0.bones.get? j = some b' ∨ BoneLenInvSq b' := by
      intro dI rotI hdI cs
      induction cs with
      | nil =>
        intro m0 m1 _ _ h j b' hb'
        simp only [MeshV.goList] at h
        injection h with h
        subst h
        exact Or.inl hb'
      | cons c cs' ihc =>
        intro m0 m1 hu0 ht0 h j b' hb'
        simp only [MeshV.goList] at h
        obtain ⟨m2, hm2, hrest⟩ := Option.bind_eq_some.mp h
        have hss := updateMesh_sameSkeleton k m0 c _ m2 hm2
        rcases ihc m2 m1 (unitLocals_of_sameSkeleton hss hu0)
          (identityLinT_of_sameSkeleton hss ht0) hrest j b' hb' with h1 | h2
        · exact ih m0 c (some (dI, rotI)) m2 hu0 ht0 hdI hm2 j b' h1
        · exact Or.inr h2
    intro m i dp m' hu ht hr h
    simp only [MeshV.updateMesh] at h
    obtain ⟨b, hb, h⟩ := Option.bind_eq_some.mp h
    obtain ⟨y, hy, h⟩ := Option.bind_eq_some.mp h
    obtain ⟨m1, hm1, h⟩ := Option.bind_eq_some.mp h
    obtain ⟨b', hb', h⟩ := Option.bind_eq_some.mp h
    injection h with h
    subst h
    have hyiso : IsoM3 y.1.lin := by
      rcases dp with _ | ⟨dP, rP⟩
      · simp only [MeshV.updateDI] at hy
        obtain ⟨dd, hdd, hy⟩ := Option.bind_eq_some.mp hy
        obtain ⟨rr, _, hy⟩ := Option.bind_eq_some.mp hy
        injection hy with hy
        subst hy
        exact getD_i_iso hu ht _ i dd hdd
      · simp only [MeshV.updateDI] at hy
        injection hy with hy
        subst hy
        rw [IsoM3, at_mul_lin, at_mul_lin, ht i b hb]
        exact isoM3_mul hr (isoM3_mul isoM3_id (quatToM3_iso (hu i b hb)))
    intro j b2 hb2
    by_cases hij : j = i
    · subst hij
      rw [get?_set_self hb'] at hb2
      injection hb2 with hb2
      subst hb2
      right
      rw [BoneLenInvSq]
      dsimp only
      rw [normSq_diff_comm, diff_applyPt, hyiso, normSq_diff_comm]
    · rw [List.get?_set_ne _ _ (fun he => hij he.symm)] at hb2
      exact hgo y.1 y.2 hyiso _ m m1 hu ht hm1 j b2 hb2

/-- After the `Mesh` constructor, every bone starts in bind pose
(`position = initPosition`, `endpoint = initEndpoint`) and its `T_ij`
is a pure translation. -/
theorem mkMesh_fields (lbs : List BoneLoaderV) :
    ∀ i b, (MeshV.mkMesh lbs).bones.get? i = some b →
      b.position = b.initPosition ∧ b.endpoint = b.initEndpoint ∧
      b.T_ij.lin = M3.id3 := by
  intro i b hb
  simp only [MeshV.mkMesh, MeshV.fixT_ij] at hb
  rw [List.get?_map] at hb
  cases hlb : (lbs.map mkBone).get? i with
  | none => rw [hlb] at hb; cases hb
  | some b0 =>
    rw [hlb, Option.map_some'] at hb
    injection hb with hb
    subst hb
    rw [List.get?_map] at hlb
    cases hlb2 : lbs.get? i with
    | none => rw [hlb2] at hlb; cases hlb
    | some lb =>
      rw [hlb2, Option.map_some'] at hlb
      injection hlb with hlb
      subst hlb
      refine ⟨rfl, rfl, ?_⟩
      dsimp only
      rw [at_translate_lin]
      rfl

/-- `meshRotateBone` changes only the target bone's `R_i`. -/
theorem meshRotateBone_preserves (m : MeshV) (i : ℕ) (axis : V3) (angle : ℝ) :
    ∀ j b', (m.meshRotateBone i axis angle).bones.get? j = some b' →
      ∃ b, m.bones.get? j = some b ∧ b'.position = b.position ∧
        b'.endpoint = b.endpoint ∧ b'.T_ij = b.T_ij ∧
        b'.initPosition = b.initPosition ∧ b'.initEndpoint = b.initEndpoint := by
  intro j b' hb'
  simp only [MeshV.meshRotateBone] at hb'
  cases hbi : m.bones.get? i with
  | none => rw [hbi] at hb'; exact ⟨b', hb', rfl, rfl, rfl, rfl, rfl⟩
  | some b0 =>
    rw [hbi] at hb'
    by_cases hij : j = i
    · subst hij
      rw [get?_set_self hbi] at hb'
      injection hb' with hb'
      subst hb'
      exact ⟨b0, hbi, rfl, rfl, rfl, rfl, rfl⟩
    · rw [List.get?_set_ne _ _ (fun he => hij he.symm)] at hb'
      exact ⟨b', hb', rfl, rfl, rfl, rfl, rfl⟩

/-- A finite sequence of `rotateBone` calls changes only `R_i` fields. -/
theorem applyRotations_preserves (rots : List (ℕ × V3 × ℝ)) :
    ∀ (m : MeshV) j b', (m.applyRotations rots).bones.get? j = some b' →
      ∃ b, m.bones.get? j = some b ∧ b'.position = b.position ∧
        b'.endpoint = b.endpoint ∧ b'.T_ij = b.T_ij ∧
        b'.initPosition = b.initPosition ∧ b'.initEndpoint = b.initEndpoint := by
  induction rots with
  | nil => exact fun m j b' hb' => ⟨b', hb', rfl, rfl, rfl, rfl, rfl⟩
  | cons r rest ih =>
    intro m j b' hb'
    obtain ⟨r1, axis, angle⟩ := r
    rw [MeshV.applyRotations] at hb'
    obtain ⟨b1, hb1, e1, e2, e3, e4, e5⟩ := ih (m.meshRotateBone r1 axis angle) j b' hb'
    obtain ⟨b0, hb0, f1, f2, f3, f4, f5⟩ := meshRotateBone_preserves m r1 axis angle j b1 hb1
    exact ⟨b0, hb0, e1.trans f1, e2.trans f2, e3.trans f3, e4.trans f4, e5.trans f5⟩

/-- Claim C4: for every bone of a forest-shaped skeleton (built by the
`Mesh` constructor) and every finite sequence of `rotateBone` calls
whose accumulated local rotations are unit quaternions, the full
recompute (`updateMesh` from any bone, parent state `null`) succeeds
and afterwards every bone's `position`-to-`endpoint` distance equals
its `initPosition`-to-`initEndpoint` distance. -/
theorem c4_bone_length_invariance (lbs : List BoneLoaderV)
    (rots : List (ℕ × V3 × ℝ)) (d : ℕ → ℕ) (i : ℕ)
    (hforest : Forest ((MeshV.mkMesh lbs).applyRotations rots) d)
    (hunit : UnitLocals ((MeshV.mkMesh lbs).applyRotations rots))
    (hi : i < ((MeshV.mkMesh lbs).applyRotations rots).bones.length) :
    ∃ m', MeshV.updateMesh ((MeshV.mkMesh lbs).applyRotations rots)
        (((MeshV.mkMesh lbs).applyRotations rots).bones.length + 1) i none = some m' ∧
      ∀ j b, m'.bones.get? j = some b →
        V3.distv b.position b.endpoint = V3.distv b.initPosition b.initEndpoint := by
  have hT : IdentityLinT ((MeshV.mkMesh lbs).applyRotations rots) := by
    intro j b hb
    obtain ⟨b0, hb0, _, _, e3, _, _⟩ := applyRotations_preserves rots _ j b hb
    rw [e3]
    exact (mkMesh_fields lbs j b0 hb0).2.2
  have hd := hforest.2 i hi
  obtain ⟨m', hm'⟩ := Option.isSome_iff_exists.mp
    (updateMesh_total (((MeshV.mkMesh lbs).applyRotations rots).bones.length + 1)
      _ i none hforest hi (by omega) (fun _ => by omega))
  refine ⟨m', hm', fun j b hb => ?_⟩
  rcases updateMesh_lenInv _ _ i none m' hunit hT trivial hm' j b hb with h1 | h2
  · obtain ⟨b0, hb0, e1, e2, _, e4, e5⟩ := applyRotations_preserves rots _ j b h1
    have h0 := mkMesh_fields lbs j b0 hb0
    have hpos : b.position = b.initPosition := by rw [e1, h0.1, ← e4]
    have hend : b.endpoint = b.initEndpoint := by rw [e2, h0.2.1, ← e5]
    rw [hpos, hend]
  · exact congrArg Real.sqrt h2

/-- Witness for C4: the untouched one-bone bind-pose skeleton. -/
theorem c4_bone_length_invariance_witness :
    Forest ((MeshV.mkMesh [sampleLoader]).applyRotations []) (fun _ => 0) ∧
    UnitLocals ((MeshV.mkMesh [sampleLoader]).applyRotations []) ∧
    ∃ m', MeshV.updateMesh ((MeshV.mkMesh [sampleLoader]).applyRotations [])
        (((MeshV.mkMesh [sampleLoader]).applyRotations []).bones.length + 1) 0 none = some m' ∧
      ∀ j b, m'.bones.get? j = some b →
        V3.distv b.position b.endpoint = V3.distv b.initPosition b.initEndpoint := by
  have hf : Forest ((MeshV.mkMesh [sampleLoader]).applyRotations []) (fun _ => 0) := by
    constructor
    · intro i b hb
      rcases i with _ | j
      · injection hb with hb
        subst hb
        refine ⟨Or.inl rfl, fun c hc => ?_⟩
        simp [MeshV.mkMesh, MeshV.fixT_ij, mkBone, sampleLoader,
          MeshV.applyRotations] at hc
      · cases hb
    · intro i hi
      simp [MeshV.applyRotations, MeshV.mkMesh, MeshV.fixT_ij]
  have hu : UnitLocals ((MeshV.mkMesh [sampleLoader]).applyRotations []) := by
    intro i b hb
    rcases i with _ | j
    · injection hb with hb
      subst hb
      show (0 : ℝ) * 0 + 0 * 0 + 0 * 0 + 1 * 1 = 1
      norm_num
    · cases hb
  exact ⟨hf, hu, c4_bone_length_invariance [sampleLoader] [] (fun _ => 0) 0 hf hu
    (by simp [MeshV.mkMesh, MeshV.fixT_ij, MeshV.applyRotations])⟩

/-! ### The selection scan of the picking pass -/

/-- Invariants of the `HighlightIndex`/`minT` scan: the running minimum
only decreases and bounds every accepted value, the result is either the
initial accumulator or an index whose entry holds the final minimum, a
`none` result means the accumulator was `none`, and an accepted value
not above the running minimum guarantees a selection. -/
theorem pickLoop_spec :
    ∀ (l : List (Option ℝ)) (i0 : ℕ) (hi : Option ℕ) (mt : ℝ),
      (pickLoop l i0 hi mt).2 ≤ mt ∧
      (∀ k w, l.get? k = some (some w) → (pickLoop l i0 hi mt).2 ≤ w) ∧
      (((pickLoop l i0 hi mt).1 = hi ∧ (pickLoop l i0 hi mt).2 = mt) ∨
        ∃ k, l.get? k = some (some ((pickLoop l i0 hi mt).2)) ∧
          (pickLoop l i0 hi mt).1 = some (i0 + k)) ∧
      ((pickLoop l i0 hi mt).1 = none → hi = none) ∧
      ((∃ k w, l.get? k = some (some w) ∧ w ≤ mt) →
        (pickLoop l i0 hi mt).1 ≠ none ∨ hi ≠ none) := by
  intro l
  induction l with
  | nil =>
    intro i0 hi mt
    refine ⟨le_refl _, ?_, Or.inl ⟨rfl, rfl⟩, fun h => h, ?_⟩
    · intro k w hk
      rw [List.get?_nil] at hk
      cases hk
    · rintro ⟨k, w, hk, _⟩
      rw [List.get?_nil] at hk
      cases hk
  | cons o rest ih =>
    intro i0 hi mt
    rcases o with _ | v
    · simp only [pickLoop]
      obtain ⟨h1, h2, h3, h4, h5⟩ := ih (i0 + 1) hi mt
      refine ⟨h1, ?_, ?_, h4, ?_⟩
      · intro k w hk
        rcases k with _ | k'
        · rw [List.get?_cons_zero] at hk
          injection hk with hk
          cases hk
        · rw [List.get?_cons_succ] at hk
          exact h2 k' w hk
      · rcases h3 with h | ⟨k, hk, hr⟩
        · exact Or.inl h
        · refine Or.inr ⟨k + 1, by rw [List.get?_cons_succ]; exact hk, ?_⟩
          rw [hr]
          congr 1
          omega
      · rintro ⟨k, w, hk, hw⟩
        rcases k with _ | k'
        · rw [List.get?_cons_zero] at hk
          injection hk with hk
          cases hk
        · rw [List.get?_cons_succ] at hk
          exact h5 ⟨k', w, hk, hw⟩
    · simp only [pickLoop]
      by_cases hv : v ≤ mt
      · rw [if_pos hv]
        obtain ⟨h1, h2, h3, h4, _⟩ := ih (i0 + 1) (some i0) v
        refine ⟨h1.trans hv, ?_, ?_, ?_, ?_⟩
        · intro k w hk
          rcases k with _ | k'
          · rw [List.get?_cons_zero] at hk
            injection hk with hk
            injection hk with hk
            rw [← hk]
            exact h1
          · rw [List.get?_cons_succ] at hk
            exact h2 k' w hk
        · rcases h3 with ⟨ha, hb⟩ | ⟨k, hk, hr⟩
          · refine Or.inr ⟨0, by rw [List.get?_cons_zero, hb], ?_⟩
            rw [ha, Nat.add_zero]
          · refine Or.inr ⟨k + 1, by rw [List.get?_cons_succ]; exact hk, ?_⟩
            rw [hr]
            congr 1
            omega
        · intro hr
          exact absurd (h4 hr) (Option.some_ne_none i0)
        · intro _
          left
          intro hr
          exact Option.some_ne_none i0 (h4 hr)
      · rw [if_neg hv]
        obtain ⟨h1, h2, h3, h4, h5⟩ := ih (i0 + 1) hi mt
        refine ⟨h1, ?_, ?_, h4, ?_⟩
        · intro k w hk
          rcases k with _ | k'
          · rw [List.get?_cons_zero] at hk
            injection hk with hk
            injection hk with hk
            rw [← hk]
            exact h1.trans (le_of_lt (lt_of_not_ge hv))
          · rw [List.get?_cons_succ] at hk
            exact h2 k' w hk
        · rcases h3 with h | ⟨k, hk, hr⟩
          · exact Or.inl h
          · refine Or.inr ⟨k + 1, by rw [List.get?_cons_succ]; exact hk, ?_⟩
            rw [hr]
            congr 1
            omega
        · rintro ⟨k, w, hk, hw⟩
          rcases k with _ | k'
          · rw [List.get?_cons_zero] at hk
            injection hk with hk
            injection hk with hk
            rw [← hk] at hw
            exact absurd hw hv
          · rw [List.get?_cons_succ] at hk
            exact h5 ⟨k', w, hk, hw⟩

theorem clearHighlights_get? (bones : List BoneV) (j : ℕ) :
    (clearHighlights bones).get? j =
      (bones.get? j).map fun b => { b with isHighlight := false } :=
  List.get?_map _ _ _

theorem cleared_not_highlight {bones : List BoneV} {j : ℕ} {bj : BoneV}
    (hj : (clearHighlights bones).get? j = some bj) : bj.isHighlight = false := by
  rw [clearHighlights_get?] at hj
  cases hb0 : bones.get? j with
  | none => rw [hb0] at hj; cases hj
  | some b0 =>
    rw [hb0, Option.map_some'] at hj
    injection hj with hj
    rw [← hj]

theorem setHighlightAt_get?_ne (bones : List BoneV) (j0 j : ℕ) (h : j ≠ j0) :
    (setHighlightAt bones j0).get? j = bones.get? j := by
  rw [setHighlightAt]
  cases hb : bones.get? j0 with
  | none => rfl
  | some b => exact List.get?_set_ne _ _ fun he => h he.symm

/-- Only the re-marked index can be highlighted after the pass. -/
theorem highlight_only_at {bones : List BoneV} {j0 j : ℕ} {bj : BoneV}
    (hj : (setHighlightAt (clearHighlights bones) j0).get? j = some bj)
    (hbj : bj.isHighlight = true) : j = j0 := by
  by_contra hne
  rw [setHighlightAt_get?_ne _ _ _ hne] at hj
  rw [cleared_not_highlight hj] at hbj
  cases hbj

theorem dragPick_none {pos dir : V3} {bones : List BoneV}
    (h : pickIndex (bones.map (perBoneIntersect pos dir)) = none) :
    dragPick pos dir bones = (clearHighlights bones, none) := by
  simp only [dragPick]
  rw [h]

theorem dragPick_some {pos dir : V3} {bones : List BoneV} {j : ℕ}
    (h : pickIndex (bones.map (perBoneIntersect pos dir)) = some j) :
    dragPick pos dir bones = (setHighlightAt (clearHighlights bones) j, some j) := by
  simp only [dragPick]
  rw [h]

/-- The selection result of the pass is the scan's highlight index. -/
theorem dragPick_snd (pos dir : V3) (bones : List BoneV) :
    (dragPick pos dir bones).2 =
      pickIndex (bones.map (perBoneIntersect pos dir)) := by
  cases hp : pickIndex (bones.map (perBoneIntersect pos dir)) with
  | none => rw [dragPick_none hp]
  | some j => rw [dragPick_some hp]

/-- At most one bone is highlighted after any picking pass. -/
theorem dragPick_atMostOne (pos dir : V3) (bones : List BoneV) :
    AtMostOneHighlight (dragPick pos dir bones).1 := by
  intro j k bj bk hj hk hbj hbk
  cases hp : pickIndex (bones.map (perBoneIntersect pos dir)) with
  | none =>
    rw [dragPick_none hp] at hj
    rw [cleared_not_highlight hj] at hbj
    cases hbj
  | some j0 =>
    rw [dragPick_some hp] at hj hk
    rw [highlight_only_at hj hbj, highlight_only_at hk hbk]

/-- Claim C2 (amended): after every picking pass (i) at most one bone is
highlighted; (ii) a selected bone attains the globally smallest RETURNED
cylinder-test value among all bones — the code accepts negative root
distances, so the claim's "positive" is dropped (see the
counterexample) — and that value is within the `Number.MAX_SAFE_INTEGER`
sentinel; (iii) if every bone's cylinder test returns `NaN` nothing is
highlighted and the selection is the `NaN` sentinel; (iv) if some bone
returns a value within the sentinel, some bone is selected. -/
theorem c2_picking_amended (pos dir : V3) (bones : List BoneV) :
    AtMostOneHighlight (dragPick pos dir bones).1 ∧
    (∀ j, (dragPick pos dir bones).2 = some j →
      ∃ v, (bones.map (perBoneIntersect pos dir)).get? j = some (some v) ∧
        v ≤ jsMaxSafeInteger ∧
        ∀ k w, (bones.map (perBoneIntersect pos dir)).get? k = some (some w) →
          v ≤ w) ∧
    ((∀ k b, bones.get? k = some b → perBoneIntersect pos dir b = none) →
      (dragPick pos dir bones).2 = none ∧
        ∀ j b', (dragPick pos dir bones).1.get? j = some b' →
          b'.isHighlight = false) ∧
    ((∃ k b v, bones.get? k = some b ∧ perBoneIntersect pos dir b = some v ∧
        v ≤ jsMaxSafeInteger) → (dragPick pos dir bones).2 ≠ none) := by
  obtain ⟨hs1, hs2, hs3, hs4, hs5⟩ :=
    pickLoop_spec (bones.map (perBoneIntersect pos dir)) 0 none jsMaxSafeInteger
  refine ⟨dragPick_atMostOne pos dir bones, ?_, ?_, ?_⟩
  · intro j hj
    cases hp : pickIndex (bones.map (perBoneIntersect pos dir)) with
    | none => rw [dragPick_snd, hp] at hj; cases hj
    | some j1 =>
      rw [dragPick_snd, hp] at hj
      injection hj with hj
      subst hj
      rw [pickIndex] at hp
      rcases hs3 with ⟨ha, _⟩ | ⟨k, hk, hr⟩
      · rw [hp] at ha; cases ha
      · rw [hp] at hr
        injection hr with hr
        refine ⟨(pickLoop (bones.map (perBoneIntersect pos dir)) 0 none
          jsMaxSafeInteger).2, ?_, hs1, hs2⟩
        have hj1 : j1 = k := by omega
        rw [hj1]
        exact hk
  · intro hall
    have hnone : pickIndex (bones.map (perBoneIntersect pos dir)) = none := by
      rw [pickIndex]
      rcases hs3 with ⟨ha, _⟩ | ⟨k, hk, _⟩
      · exact ha
      · rw [List.get?_map] at hk
        cases hb0 : bones.get? k with
        | none => rw [hb0] at hk; cases hk
        | some b0 =>
          rw [hb0, Option.map_some'] at hk
          injection hk with hk
          rw [hall k b0 hb0] at hk
          cases hk
    rw [dragPick_none hnone]
    exact ⟨rfl, fun j b' hj => cleared_not_highlight hj⟩
  · rintro ⟨k, b, v, hk, hv, hvs⟩ hcontra
    rw [dragPick_snd, pickIndex] at hcontra
    rcases hs5 ⟨k, v, by rw [List.get?_map, hk, Option.map_some', hv], hvs⟩ with h | h
    · exact h hcontra
    · exact h rfl

/-! ### Claim C9: degenerate (zero-length) bones are unselectable -/

theorem m3_zero_apply (v : V3) : M3.apply M3.zero3 v = V3.zero := by
  ext <;> simp [M3.apply, M3.zero3, V3.zero]

theorem normalize_zero : V3.normalize V3.zero = V3.zero := by
  rw [V3.normalize, if_pos]
  simp [V3.len, V3.normSq, V3.zero]

/-- The cylinder test on the degenerate zero ray: `a = 0`, so the JS
computation yields `NaN`. -/
theorem intersectCilinder_zero (dist : ℝ) :
    intersectCilinder V3.zero V3.zero dist = none := by
  simp only [intersectCilinder, normalize_zero]
  norm_num [V3.zero]

/-- A zero-length bone produces the zero (singular) local frame. -/
theorem boneFrame_degenerate {b : BoneV} (h : b.endpoint = b.position) :
    boneFrame b = M3.zero3 := by
  have h0 : V3.diff b.endpoint b.position = V3.zero := by
    rw [h]
    ext <;> simp [V3.diff, V3.zero]
  simp only [boneFrame, h0, normalize_zero]
  norm_num [V3.dot, V3.zero, V3.cross, normalize_zero, M3.ofColMajor, M3.inv,
    M3.det, M3.zero3]

/-- The picking loop body returns `NaN` on a zero-length bone. -/
theorem perBoneIntersect_degenerate (pos dir : V3) {b : BoneV}
    (h : b.endpoint = b.position) : perBoneIntersect pos dir b = none := by
  simp only [perBoneIntersect, boneFrame_degenerate h, m3_zero_apply]
  exact intersectCilinder_zero _

/-- Claim C9: a picking pass over a bone list containing a zero-length
bone completes (the embedding is total), treats that bone's cylinder
test as `NaN` (no valid intersection), and never highlights or selects
it. -/
theorem c9_degenerate_bone (pos dir : V3) (bones : List BoneV) (k : ℕ)
    (b : BoneV) (hb : bones.get? k = some b) (hdeg : b.endpoint = b.position) :
    perBoneIntersect pos dir b = none ∧
    (dragPick pos dir bones).2 ≠ some k ∧
    ∀ b', (dragPick pos dir bones).1.get? k = some b' →
      b'.isHighlight = false := by
  have hint : (bones.map (perBoneIntersect pos dir)).get? k = some none := by
    rw [List.get?_map, hb, Option.map_some', perBoneIntersect_degenerate pos dir hdeg]
  obtain ⟨_, _, hs3, _, _⟩ :=
    pickLoop_spec (bones.map (perBoneIntersect pos dir)) 0 none jsMaxSafeInteger
  have hnotk : pickIndex (bones.map (perBoneIntersect pos dir)) ≠ some k := by
    intro hp
    rw [pickIndex] at hp
    rcases hs3 with ⟨ha, _⟩ | ⟨k', hk', hr⟩
    · rw [hp] at ha; cases ha
    · rw [hp] at hr
      injection hr with hr
      have hkk : k = k' := by omega
      rw [← hkk] at hk'
      rw [hint] at hk'
      injection hk' with hk'
      cases hk'
  refine ⟨perBoneIntersect_degenerate pos dir hdeg, ?_, ?_⟩
  · rw [dragPick_snd]
    exact hnotk
  · intro b' hb'
    cases hp : pickIndex (bones.map (perBoneIntersect pos dir)) with
    | none =>
      rw [dragPick_none hp] at hb'
      exact cleared_not_highlight hb'
    | some j0 =>
      rw [dragPick_some hp] at hb'
      have hj0 : k ≠ j0 := fun he => hnotk (by rw [hp, he])
      rw [setHighlightAt_get?_ne _ _ _ hj0] at hb'
      exact cleared_not_highlight hb'

/-! ### A concrete picking pass that selects a bone at negative distance

The camera sits at `(0, 1, -5)` and the unprojected ray points AWAY
from the bone (direction `(0, 0, -1)`), so the positive ray hits
nothing; but the infinite line crosses the bone's cylinder at the
negative parameters `-5.1` and `-4.9`, `intersectCilinder` accepts
them, and the pass highlights the bone. -/

/-- The counterexample bone: a root bone from the origin to `(0,2,0)`. -/
def cexBone : BoneV :=
  { parent := -1, children := [], position := ⟨0, 0, 0⟩,
    endpoint := ⟨0, 2, 0⟩, rotation := QuatH.one, isHighlight := false,
    T_ij := AT.idA, R_i := QuatH.one, initPosition := ⟨0, 0, 0⟩,
    initEndpoint := ⟨0, 2, 0⟩ }

/-- The counterexample camera position. -/
def cexPos : V3 := ⟨0, 1, -5⟩

/-- The counterexample unprojected ray direction. -/
def cexDir : V3 := ⟨0, 0, -1⟩

theorem len_eval (v : V3) (c : ℝ) (hc : 0 ≤ c) (h : V3.normSq v = c ^ 2) :
    V3.len v = c := by
  rw [V3.len, h]
  exact Real.sqrt_sq hc

theorem normalize_of_len (v : V3) (c : ℝ) (h : V3.len v = c) (hc : c ≠ 0) :
    V3.normalize v = V3.smul (1 / c) v := by
  rw [V3.normalize, h, if_neg hc]

theorem normalize_e1 : V3.normalize ⟨1, 0, 0⟩ = ⟨1, 0, 0⟩ := by
  rw [normalize_of_len _ 1 (len_eval _ 1 (by norm_num) (by norm_num [V3.normSq]))
    (by norm_num)]
  ext <;> norm_num [V3.smul]

theorem cex_tang :
    V3.normalize (V3.diff cexBone.endpoint cexBone.position) = ⟨0, 1, 0⟩ := by
  have h1 : V3.diff cexBone.endpoint cexBone.position = ⟨0, 2, 0⟩ := by
    ext <;> norm_num [cexBone, V3.diff]
  rw [h1, normalize_of_len _ 2 (len_eval _ 2 (by norm_num) (by norm_num [V3.normSq]))
    (by norm_num)]
  ext <;> norm_num [V3.smul]

theorem cex_frame : boneFrame cexBone = ⟨0, 0, -1, 0, 1, 0, -1, 0, 0⟩ := by
  simp only [boneFrame, cex_tang]
  rw [show V3.dot ⟨0, 1, 0⟩ ⟨0, 1, 0⟩ = 1 by norm_num [V3.dot],
    if_neg (by norm_num)]
  rw [show V3.cross ⟨0, 1, 0⟩ ⟨1, 0, 0⟩ = ⟨0, 0, -1⟩ by
    ext <;> norm_num [V3.cross]]
  rw [show V3.normalize ⟨(0 : ℝ), 0, -1⟩ = ⟨0, 0, -1⟩ by
    rw [normalize_of_len _ 1 (len_eval _ 1 (by norm_num) (by norm_num [V3.normSq]))
      (by norm_num)]
    ext <;> norm_num [V3.smul]]
  rw [show V3.cross ⟨0, 1, 0⟩ ⟨0, 0, -1⟩ = ⟨-1, 0, 0⟩ by
    ext <;> norm_num [V3.cross]]
  rw [show V3.normalize ⟨(-1 : ℝ), 0, 0⟩ = ⟨-1, 0, 0⟩ by
    rw [normalize_of_len _ 1 (len_eval _ 1 (by norm_num) (by norm_num [V3.normSq]))
      (by norm_num)]
    ext <;> norm_num [V3.smul]]
  rw [show M3.ofColMajor 0 0 (-1) 0 1 0 (-1) 0 0 =
    (⟨0, 0, -1, 0, 1, 0, -1, 0, 0⟩ : M3) by rfl]
  rw [M3.inv, if_neg (by norm_num [M3.det])]
  ext <;> norm_num [M3.det, M3.adj, M3.smulM]

theorem cex_dirT :
    M3.apply ⟨0, 0, -1, 0, 1, 0, -1, 0, 0⟩ cexDir = ⟨1, 0, 0⟩ := by
  ext <;> norm_num [M3.apply, cexDir]

theorem cex_posT :
    M3.apply ⟨0, 0, -1, 0, 1, 0, -1, 0, 0⟩ (V3.diff cexPos cexBone.position) =
      ⟨5, 1, 0⟩ := by
  ext <;> norm_num [M3.apply, V3.diff, cexPos, cexBone]

theorem cex_dist : V3.distv cexBone.endpoint cexBone.position = 2 := by
  have h1 : V3.diff cexBone.endpoint cexBone.position = ⟨0, 2, 0⟩ := by
    ext <;> norm_num [cexBone, V3.diff]
  rw [V3.distv, h1]
  exact len_eval _ 2 (by norm_num) (by norm_num [V3.normSq])

theorem cex_ic : intersectCilinder ⟨5, 1, 0⟩ ⟨1, 0, 0⟩ 2 = some (-(51 / 10)) := by
  simp only [intersectCilinder, normalize_e1]
  norm_num [RADIUS_BONE, jsMaxValue, min_def,
    show Real.sqrt (1 / 25) = 1 / 5 by
      rw [show (1 / 25 : ℝ) = (1 / 5) ^ 2 by norm_num]
      exact Real.sqrt_sq (by norm_num)]

theorem cex_perBone :
    perBoneIntersect cexPos cexDir cexBone = some (-(51 / 10)) := by
  simp only [perBoneIntersect, cex_frame, cex_posT, cex_dirT, cex_dist, cex_ic]

/-- The picking pass selects the counterexample bone (at the negative
hit distance `-5.1`). -/
theorem cex_selected : (dragPick cexPos cexDir [cexBone]).2 = some 0 := by
  have hints : [cexBone].map (perBoneIntersect cexPos cexDir) =
      [some (-(51 / 10))] := by
    simp only [List.map_cons, List.map_nil, cex_perBone]
  have hpick : pickIndex [some (-(51 / 10))] = some 0 := by
    rw [pickIndex, pickLoop, if_pos (by norm_num [jsMaxSafeInteger])]
    rfl
  rw [dragPick_snd, hints, hpick]

/-- No positive ray parameter hits the counterexample bone's cylinder
segment. -/
theorem cex_no_spec_hit : ∀ t, ¬ SpecBoneHit cexPos cexDir cexBone t := by
  intro t hhit
  simp only [SpecBoneHit, cex_frame, cex_posT, cex_dirT, normalize_e1] at hhit
  obtain ⟨ht, hsurf, _⟩ := hhit
  norm_num [RADIUS_BONE] at hsurf
  nlinarith [ht, hsurf]

/-- Claim C2 as stated is false on the code: at the counterexample
input no bone has a valid positive hit distance, yet the pass selects
(and highlights) the bone, because `intersectCilinder` never checks
root positivity. -/
theorem c2_picking_counterexample : ¬ SpecPickingClaim cexPos cexDir [cexBone] := by
  intro h
  have hno : ¬ ∃ k b t, [cexBone].get? k = some b ∧
      SpecBoneHit cexPos cexDir b t := by
    rintro ⟨k, b, t, hk, hhit⟩
    rcases k with _ | k'
    · injection hk with hk
      subst hk
      exact cex_no_spec_hit t hhit
    · cases hk
  obtain ⟨hsel0, _⟩ := h.2.2 hno
  rw [cex_selected] at hsel0
  cases hsel0

/-- Witness for the amended C2 at the counterexample input: the pass
selects bone 0 and the theorem yields its minimal returned value. -/
theorem c2_picking_amended_witness :
    (dragPick cexPos cexDir [cexBone]).2 = some 0 ∧
    ∃ v, ([cexBone].map (perBoneIntersect cexPos cexDir)).get? 0 =
        some (some v) ∧ v ≤ jsMaxSafeInteger ∧
      ∀ k w, ([cexBone].map (perBoneIntersect cexPos cexDir)).get? k =
          some (some w) → v ≤ w :=
  ⟨cex_selected,
   (c2_picking_amended cexPos cexDir [cexBone]).2.1 0 cex_selected⟩

/-- A degenerate loader bone (joint and endpoint coincide). -/
def degenerateLoader : BoneLoaderV :=
  { parent := -1, children := [], position := ⟨0, 0, 0⟩,
    endpoint := ⟨0, 0, 0⟩, rotation := QuatH.one }

/-- Witness for C9: a one-bone skeleton whose bone is zero-length. -/
theorem c9_degenerate_bone_witness :
    perBoneIntersect ⟨0, 0, -5⟩ ⟨0, 0, 1⟩ (mkBone degenerateLoader) = none ∧
    (dragPick ⟨0, 0, -5⟩ ⟨0, 0, 1⟩ [mkBone degenerateLoader]).2 ≠ some 0 :=
  ⟨(c9_degenerate_bone ⟨0, 0, -5⟩ ⟨0, 0, 1⟩ [mkBone degenerateLoader] 0
      (mkBone degenerateLoader) rfl rfl).1,
   (c9_degenerate_bone ⟨0, 0, -5⟩ ⟨0, 0, 1⟩ [mkBone degenerateLoader] 0
      (mkBone degenerateLoader) rfl rfl).2.1⟩

/-! ### Store extension and record preservation for the object model -/

theorem get?_append_left_vm {α : Type} {l : List α} {i : ℕ} {a : α}
    (h : l.get? i = some a) (l' : List α) : (l ++ l').get? i = some a := by
  rw [List.get?_append (get?_some_lt h)]
  exact h

theorem ext_refl (s : Store) : Ext s s :=
  ⟨fun _ _ h => h, fun _ _ h => h, fun _ _ h => h⟩

theorem ext_trans {s1 s2 s3 : Store} (h12 : Ext s1 s2) (h23 : Ext s2 s3) :
    Ext s1 s3 :=
  ⟨fun a v h => h23.1 a v (h12.1 a v h), fun a q h => h23.2.1 a q (h12.2.1 a q h),
   fun a m h => h23.2.2 a m (h12.2.2 a m h)⟩

theorem ext_allocV (s : Store) (v : V3) : Ext s (s.allocV v).1 :=
  ⟨fun _ _ h => get?_append_left_vm h _, fun _ _ h => h, fun _ _ h => h⟩

theorem ext_allocQ (s : Store) (q : QuatH) : Ext s (s.allocQ q).1 :=
  ⟨fun _ _ h => h, fun _ _ h => get?_append_left_vm h _, fun _ _ h => h⟩

theorem ext_allocM (s : Store) (m : AT) : Ext s (s.allocM m).1 :=
  ⟨fun _ _ h => h, fun _ _ h => h, fun _ _ h => get?_append_left_vm h _⟩

/-- Captured values can still be read back after a store extension. -/
theorem derefBoneR_ext {s s' : Store} (hx : Ext s s') {kb : BoneR} {bv : BoneV}
    (h : derefBoneR s kb = some bv) : derefBoneR s' kb = some bv := by
  simp only [derefBoneR] at h ⊢
  obtain ⟨pv, hpv, h⟩ := Option.bind_eq_some.mp h
  obtain ⟨ev, hev, h⟩ := Option.bind_eq_some.mp h
  obtain ⟨rv, hrv, h⟩ := Option.bind_eq_some.mp h
  obtain ⟨tv, htv, h⟩ := Option.bind_eq_some.mp h
  obtain ⟨riv, hriv, h⟩ := Option.bind_eq_some.mp h
  obtain ⟨ipv, hipv, h⟩ := Option.bind_eq_some.mp h
  obtain ⟨iev, hiev, h⟩ := Option.bind_eq_some.mp h
  rw [hx.1 _ _ hpv, bind_some_vm, hx.1 _ _ hev, bind_some_vm,
    hx.2.1 _ _ hrv, bind_some_vm, hx.2.2 _ _ htv, bind_some_vm,
    hx.2.1 _ _ hriv, bind_some_vm, hx.1 _ _ hipv, bind_some_vm,
    hx.1 _ _ hiev, bind_some_vm]
  exact h

/-- Live bone lists before/after an operation: equal length and per
bone unchanged `initPosition`/`initEndpoint` cell addresses. -/
def SameInit (live live' : List BoneR) : Prop :=
  live'.length = live.length ∧
  ∀ i b, live.get? i = some b → ∃ b', live'.get? i = some b' ∧
    b'.initPosition = b.initPosition ∧ b'.initEndpoint = b.initEndpoint

theorem sameInit_refl (live : List BoneR) : SameInit live live :=
  ⟨rfl, fun _ b hb => ⟨b, hb, rfl, rfl⟩⟩

theorem sameInit_trans {l1 l2 l3 : List BoneR} (h12 : SameInit l1 l2)
    (h23 : SameInit l2 l3) : SameInit l1 l3 := by
  refine ⟨h23.1.trans h12.1, fun i b hb => ?_⟩
  obtain ⟨b2, hb2, e1, e2⟩ := h12.2 i b hb
  obtain ⟨b3, hb3, f1, f2⟩ := h23.2 i b2 hb2
  exact ⟨b3, hb3, f1.trans e1, f2.trans e2⟩

theorem sameInit_set {live : List BoneR} {i : ℕ} {b b' : BoneR}
    (hb : live.get? i = some b) (hip : b'.initPosition = b.initPosition)
    (hie : b'.initEndpoint = b.initEndpoint) :
    SameInit live (live.set i b') := by
  refine ⟨by simp, fun j bj hbj => ?_⟩
  by_cases hij : i = j
  · subst hij
    rw [hb] at hbj
    injection hbj with hbj
    subst hbj
    exact ⟨b', get?_set_self hb, hip, hie⟩
  · exact ⟨bj, by rw [List.get?_set_ne _ _ hij]; exact hbj, rfl, rfl⟩

/-- The `rotateBone` call only allocates and rebinds `R_i`. -/
theorem rotateBoneR_pres {s : Store} {live : List BoneR} {i : ℕ} {axis : V3}
    {angle : ℝ} {s' : Store} {live' : List BoneR}
    (h : rotateBoneR s live i axis angle = some (s', live')) :
    Ext s s' ∧ SameInit live live' := by
  simp only [rotateBoneR] at h
  obtain ⟨b, hb, h⟩ := Option.bind_eq_some.mp h
  obtain ⟨rv, hrv, h⟩ := Option.bind_eq_some.mp h
  injection h with h
  have hs := congrArg Prod.fst h
  have hl := congrArg Prod.snd h
  dsimp only at hs hl
  rw [← hs, ← hl]
  exact ⟨ext_allocQ s _, sameInit_set hb rfl rfl⟩

/-- The `Bone` copy constructor only allocates. -/
theorem copyBoneR_ext {s : Store} {b : BoneR} {s' : Store} {kb : BoneR}
    (h : copyBoneR s b = some (s', kb)) : Ext s s' := by
  simp only [copyBoneR] at h
  obtain ⟨pv, _, h⟩ := Option.bind_eq_some.mp h
  obtain ⟨ev, _, h⟩ := Option.bind_eq_some.mp h
  obtain ⟨rv, _, h⟩ := Option.bind_eq_some.mp h
  obtain ⟨ipv, _, h⟩ := Option.bind_eq_some.mp h
  obtain ⟨iev, _, h⟩ := Option.bind_eq_some.mp h
  injection h with h
  have hs := congrArg Prod.fst h
  dsimp only at hs
  rw [← hs]
  exact ext_trans (ext_allocV _ _) (ext_trans (ext_allocV _ _)
    (ext_trans (ext_allocQ _ _) (ext_trans (ext_allocV _ _) (ext_allocV _ _))))

/-- `KeyFrame` capture only allocates. -/
theorem captureBones_ext :
    ∀ (live : List BoneR) (s : Store) (s' : Store) (kbs : List BoneR),
      captureBones s live = some (s', kbs) → Ext s s' := by
  intro live
  induction live with
  | nil =>
    intro s s' kbs h
    simp only [captureBones] at h
    injection h with h
    injection h with hs hl
    rw [← hs]
    exact ext_refl s
  | cons b rest ih =>
    intro s s' kbs h
    simp only [captureBones] at h
    obtain ⟨sk, hsk, h⟩ := Option.bind_eq_some.mp h
    obtain ⟨sk2, hsk2, h⟩ := Option.bind_eq_some.mp h
    injection h with h
    injection h with hs hl
    rw [← hs]
    exact ext_trans (copyBoneR_ext (by rw [hsk]))
      (ih _ _ _ (by rw [hsk2]))

/-- `updateMesh` at the object level only allocates and rebinds the
written fields; `initPosition`/`initEndpoint` addresses are untouched. -/
theorem updateMeshR_pres :
    ∀ fuel (s : Store) (live : List BoneR) i dp s' live',
      updateMeshR fuel s live i dp = some (s', live') →
      Ext s s' ∧ SameInit live live' := by
  intro fuel
  induction fuel with
  | zero => intro s live i dp s' live' h; simp [updateMeshR] at h
  | succ k ih =>
    have hgo : ∀ (dI : AT) (rotI : QuatH) cs (sl0 sl1 : Store × List BoneR),
        goListR (fun sl c => updateMeshR k sl.1 sl.2 c (some (dI, rotI))) sl0 cs = some sl1 →
        Ext sl0.1 sl1.1 ∧ SameInit sl0.2 sl1.2 := by
      intro dI rotI cs
      induction cs with
      | nil =>
        intro sl0 sl1 h
        simp only [goListR] at h
        injection h with h
        subst h
        exact ⟨ext_refl _, sameInit_refl _⟩
      | cons c cs' ihc =>
        intro sl0 sl1 h
        simp only [goListR] at h
        obtain ⟨sl2, hsl2, hrest⟩ := Option.bind_eq_some.mp h
        have h1 := ih sl0.1 sl0.2 c (some (dI, rotI)) sl2.1 sl2.2 (by rw [hsl2])
        have h2 := ihc sl2 sl1 hrest
        exact ⟨ext_trans h1.1 h2.1, sameInit_trans h1.2 h2.2⟩
    intro s live i dp s' live' h
    simp only [updateMeshR] at h
    obtain ⟨b, hb, h⟩ := Option.bind_eq_some.mp h
    obtain ⟨tij, _, h⟩ := Option.bind_eq_some.mp h
    obtain ⟨ri, _, h⟩ := Option.bind_eq_some.mp h
    obtain ⟨y, _, h⟩ := Option.bind_eq_some.mp h
    obtain ⟨sl, hsl, h⟩ := Option.bind_eq_some.mp h
    obtain ⟨b', hb', h⟩ := Option.bind_eq_some.mp h
    obtain ⟨ipv, _, h⟩ := Option.bind_eq_some.mp h
    obtain ⟨iev, _, h⟩ := Option.bind_eq_some.mp h
    injection h with h
    injection h with hs hl
    have hmain := hgo y.1 y.2 _ (s, live) sl hsl
    constructor
    · rw [← hs]
      exact ext_trans hmain.1 (ext_trans (ext_allocV _ _)
        (ext_trans (ext_allocV _ _) (ext_allocQ _ _)))
    · rw [← hl]
      exact sameInit_trans hmain.2 (sameInit_set hb' rfl rfl)

/-- `calculateD_iAndTranslate` at the object level only allocates and
rebinds `position`/`endpoint`. -/
theorem calculateR_pres :
    ∀ fuel (s : Store) (live : List BoneR) i dp s' live',
      calculateR fuel s live i dp = some (s', live') →
      Ext s s' ∧ SameInit live live' := by
  intro fuel
  induction fuel with
  | zero => intro s live i dp s' live' h; simp [calculateR] at h
  | succ k ih =>
    have hgo : ∀ (dI : AT) cs (sl0 sl1 : Store × List BoneR),
        goListR (fun sl c => calculateR k sl.1 sl.2 c (some dI)) sl0 cs = some sl1 →
        Ext sl0.1 sl1.1 ∧ SameInit sl0.2 sl1.2 := by
      intro dI cs
      induction cs with
      | nil =>
        intro sl0 sl1 h
        simp only [goListR] at h
        injection h with h
        subst h
        exact ⟨ext_refl _, sameInit_refl _⟩
      | cons c cs' ihc =>
        intro sl0 sl1 h
        simp only [goListR] at h
        obtain ⟨sl2, hsl2, hrest⟩ := Option.bind_eq_some.mp h
        have h1 := ih sl0.1 sl0.2 c (some dI) sl2.1 sl2.2 (by rw [hsl2])
        have h2 := ihc sl2 sl1 hrest
        exact ⟨ext_trans h1.1 h2.1, sameInit_trans h1.2 h2.2⟩
    intro s live i dp s' live' h
    simp only [calculateR] at h
    obtain ⟨b, hb, h⟩ := Option.bind_eq_some.mp h
    obtain ⟨tij, _, h⟩ := Option.bind_eq_some.mp h
    obtain ⟨ri, _, h⟩ := Option.bind_eq_some.mp h
    obtain ⟨y, _, h⟩ := Option.bind_eq_some.mp h
    obtain ⟨sl, hsl, h⟩ := Option.bind_eq_some.mp h
    obtain ⟨b', hb', h⟩ := Option.bind_eq_some.mp h
    obtain ⟨ipv, _, h⟩ := Option.bind_eq_some.mp h
    obtain ⟨iev, _, h⟩ := Option.bind_eq_some.mp h
    injection h with h
    injection h with hs hl
    have hmain := hgo y _ (s, live) sl hsl
    constructor
    · rw [← hs]
      exact ext_trans hmain.1 (ext_trans (ext_allocV _ _) (ext_allocV _ _))
    · rw [← hl]
      exact sameInit_trans hmain.2 (sameInit_set hb' rfl rfl)

/-- The playback interpolation loop only allocates and rebinds
`rotation`/`R_i`. -/
theorem interpIdxR_pres (slerp : QuatH → QuatH → ℝ → QuatH)
    (kf1 kf2 : List BoneR) (t : ℝ) :
    ∀ idxs (s : Store) (live : List BoneR) s' live',
      interpIdxR slerp kf1 kf2 t s live idxs = some (s', live') →
      Ext s s' ∧ SameInit live live' := by
  intro idxs
  induction idxs with
  | nil =>
    intro s live s' live' h
    simp only [interpIdxR] at h
    injection h with h
    injection h with hs hl
    rw [← hs, ← hl]
    exact ⟨ext_refl _, sameInit_refl _⟩
  | cons i rest ih =>
    intro s live s' live' h
    simp only [interpIdxR] at h
    obtain ⟨b, hb, h⟩ := Option.bind_eq_some.mp h
    obtain ⟨k1, _, h⟩ := Option.bind_eq_some.mp h
    obtain ⟨k2, _, h⟩ := Option.bind_eq_some.mp h
    obtain ⟨q1, _, h⟩ := Option.bind_eq_some.mp h
    obtain ⟨q2, _, h⟩ := Option.bind_eq_some.mp h
    obtain ⟨r1, _, h⟩ := Option.bind_eq_some.mp h
    obtain ⟨r2, _, h⟩ := Option.bind_eq_some.mp h
    have h1 := ih _ _ _ _ h
    refine ⟨ext_trans (ext_trans (ext_allocQ _ _) (ext_allocQ _ _)) h1.1,
      sameInit_trans ?_ h1.2⟩
    exact sameInit_set hb rfl rfl

/-- The root recompute loop of the playback tick. -/
theorem rootsPassR_pres (fuel : ℕ) :
    ∀ idxs (s : Store) (live : List BoneR) s' live',
      rootsPassR fuel s live idxs = some (s', live') →
      Ext s s' ∧ SameInit live live' := by
  intro idxs
  induction idxs with
  | nil =>
    intro s live s' live' h
    simp only [rootsPassR] at h
    injection h with h
    injection h with hs hl
    rw [← hs, ← hl]
    exact ⟨ext_refl _, sameInit_refl _⟩
  | cons i rest ih =>
    intro s live s' live' h
    simp only [rootsPassR] at h
    obtain ⟨b, hb, h⟩ := Option.bind_eq_some.mp h
    by_cases hroot : b.parent = -1
    · rw [if_pos hroot] at h
      obtain ⟨sl1, hsl1, h⟩ := Option.bind_eq_some.mp h
      have h1 := calculateR_pres fuel s live i none sl1.1 sl1.2 (by rw [hsl1])
      have h2 := ih sl1.1 sl1.2 s' live' h
      exact ⟨ext_trans h1.1 h2.1, sameInit_trans h1.2 h2.2⟩
    · rw [if_neg hroot] at h
      exact ih _ _ _ _ h

theorem derefBonesR_length : ∀ (live : List BoneR) (s : Store) (bv : List BoneV),
    derefBonesR s live = some bv → bv.length = live.length := by
  intro live
  induction live with
  | nil =>
    intro s bv h
    simp only [derefBonesR] at h
    injection h with h
    rw [← h]
    rfl
  | cons b rest ih =>
    intro s bv h
    simp only [derefBonesR] at h
    obtain ⟨x, hx, h⟩ := Option.bind_eq_some.mp h
    obtain ⟨xs, hxs, h⟩ := Option.bind_eq_some.mp h
    injection h with h
    rw [← h]
    simp only [List.length_cons, ih s xs hxs]

theorem setHighlightAt_length (bs : List BoneV) (j : ℕ) :
    (setHighlightAt bs j).length = bs.length := by
  simp only [setHighlightAt]
  cases hg : bs.get? j <;> simp

theorem dragPick_length (pos dir : V3) (bones : List BoneV) :
    (dragPick pos dir bones).1.length = bones.length := by
  simp only [dragPick]
  cases h : pickIndex (bones.map (perBoneIntersect pos dir)) <;>
    simp [h, setHighlightAt_length, clearHighlights]

theorem zip_get?_vm {α β : Type} : ∀ (l1 : List α) (l2 : List β) (i : ℕ) (a : α),
    l1.get? i = some a → l2.length = l1.length →
    ∃ b, l2.get? i = some b ∧ (l1.zip l2).get? i = some (a, b) := by
  intro l1
  induction l1 with
  | nil => intro l2 i a h; simp at h
  | cons x xs ih =>
    intro l2 i a h hlen
    cases l2 with
    | nil => simp at hlen
    | cons y ys =>
      cases i with
      | zero =>
        rw [List.get?_cons_zero] at h
        injection h with h
        subst h
        exact ⟨y, rfl, rfl⟩
      | succ i' =>
        rw [List.get?_cons_succ] at h
        obtain ⟨b, hb, hz⟩ := ih ys i' a h (by simpa using hlen)
        exact ⟨b, by rw [List.get?_cons_succ]; exact hb,
          by rw [List.zip_cons_cons, List.get?_cons_succ]; exact hz⟩

/-- The picking pass leaves the store untouched and only rewrites the
bones' plain `isHighlight` fields. -/
theorem pickR_pres {pos dir : V3} {s : Store} {live : List BoneR} {s' : Store}
    {live' : List BoneR} (h : pickR pos dir s live = some (s', live')) :
    Ext s s' ∧ SameInit live live' := by
  simp only [pickR] at h
  obtain ⟨bv, hbv, h⟩ := Option.bind_eq_some.mp h
  injection h with h
  injection h with hs hl
  rw [← hs, ← hl]
  refine ⟨ext_refl _, ?_⟩
  have hlen : (dragPick pos dir bv).1.length = live.length := by
    rw [dragPick_length, derefBonesR_length live s bv hbv]
  constructor
  · rw [List.length_map, List.length_zip, hlen]
    exact Nat.min_self _
  · intro i b hb
    obtain ⟨c, hc, hz⟩ := zip_get?_vm live (dragPick pos dir bv).1 i b hb hlen
    exact ⟨{ b with isHighlight := c.isHighlight },
      by rw [List.get?_map, hz]; rfl, rfl, rfl⟩

/-- One playback tick. -/
theorem tickR_pres (slerp : QuatH → QuatH → ℝ → QuatH) (fuel : ℕ)
    (s : Store) (live kf1 kf2 : List BoneR) (t : ℝ) (s' : Store)
    (live' : List BoneR) (h : tickR slerp fuel s live kf1 kf2 t = some (s', live')) :
    Ext s s' ∧ SameInit live live' := by
  simp only [tickR] at h
  obtain ⟨sl1, hsl1, h⟩ := Option.bind_eq_some.mp h
  have h1 := interpIdxR_pres slerp kf1 kf2 t _ s live sl1.1 sl1.2 (by rw [hsl1])
  have h2 := rootsPassR_pres fuel _ sl1.1 sl1.2 s' live' h
  exact ⟨ext_trans h1.1 h2.1, sameInit_trans h1.2 h2.2⟩

/-- The copy constructor hands the new bone the SAME `T_ij` and `R_i`
objects as the source bone (`this.T_ij = bone.T_ij`;
`this.R_i = bone.R_i`). -/
theorem copyBoneR_shares {s : Store} {b : BoneR} {s' : Store} {kb : BoneR}
    (h : copyBoneR s b = some (s', kb)) : kb.T_ij = b.T_ij ∧ kb.R_i = b.R_i := by
  simp only [copyBoneR] at h
  obtain ⟨pv, _, h⟩ := Option.bind_eq_some.mp h
  obtain ⟨ev, _, h⟩ := Option.bind_eq_some.mp h
  obtain ⟨rv, _, h⟩ := Option.bind_eq_some.mp h
  obtain ⟨ipv, _, h⟩ := Option.bind_eq_some.mp h
  obtain ⟨iev, _, h⟩ := Option.bind_eq_some.mp h
  injection h with h
  have hl := congrArg Prod.snd h
  dsimp only at hl
  rw [← hl]
  exact ⟨rfl, rfl⟩

/-- Every captured keyframe bone shares its `T_ij` and `R_i` objects
with the corresponding live bone. -/
theorem captureBones_shares :
    ∀ (live : List BoneR) (s s' : Store) (kbs : List BoneR),
      captureBones s live = some (s', kbs) →
      ∀ i b, live.get? i = some b → ∃ kb, kbs.get? i = some kb ∧
        kb.T_ij = b.T_ij ∧ kb.R_i = b.R_i := by
  intro live
  induction live with
  | nil => intro s s' kbs h i b hb; simp at hb
  | cons b0 rest ih =>
    intro s s' kbs h i b hb
    simp only [captureBones] at h
    obtain ⟨sk, hsk, h⟩ := Option.bind_eq_some.mp h
    obtain ⟨sk2, hsk2, h⟩ := Option.bind_eq_some.mp h
    injection h with h
    injection h with hs hl
    cases i with
    | zero =>
      rw [List.get?_cons_zero] at hb
      injection hb with hb
      subst hb
      have hsh := copyBoneR_shares (show copyBoneR s b0 = some (sk.1, sk.2) by rw [hsk])
      exact ⟨sk.2, by rw [← hl]; rfl, hsh⟩
    | succ i' =>
      rw [List.get?_cons_succ] at hb
      obtain ⟨kb, hkb, hsh⟩ := ih sk.1 sk2.1 sk2.2 (by rw [hsk2]) i' b hb
      exact ⟨kb, by rw [← hl, List.get?_cons_succ]; exact hkb, hsh⟩

/-- Every event-handler operation extends the store, keeps the live
bones' init addresses, and keeps every previously captured keyframe
record (capture only appends a new one). -/
theorem applyHOp_pres (slerp : QuatH → QuatH → ℝ → QuatH) (st : HState)
    (op : HOp) (st' : HState) (h : applyHOp slerp st op = some st') :
    Ext st.store st'.store ∧ SameInit st.live st'.live ∧
    (∀ k kfb, st.kfs.get? k = some kfb → st'.kfs.get? k = some kfb) := by
  cases op with
  | rotate i axis angle =>
    simp only [applyHOp] at h
    obtain ⟨sl, hsl, h⟩ := Option.map_eq_some'.mp h
    have hp := rotateBoneR_pres
      (show rotateBoneR st.store st.live i axis angle = some (sl.1, sl.2) by rw [hsl])
    rw [← h]
    exact ⟨hp.1, hp.2, fun k kfb hk => hk⟩
  | update i =>
    simp only [applyHOp] at h
    obtain ⟨sl, hsl, h⟩ := Option.map_eq_some'.mp h
    have hp := updateMeshR_pres (st.live.length + 1) st.store st.live i none
      sl.1 sl.2 (by rw [hsl])
    rw [← h]
    exact ⟨hp.1, hp.2, fun k kfb hk => hk⟩
  | calcD i =>
    simp only [applyHOp] at h
    obtain ⟨sl, hsl, h⟩ := Option.map_eq_some'.mp h
    have hp := calculateR_pres (st.live.length + 1) st.store st.live i none
      sl.1 sl.2 (by rw [hsl])
    rw [← h]
    exact ⟨hp.1, hp.2, fun k kfb hk => hk⟩
  | tick k1 k2 t =>
    simp only [applyHOp] at h
    obtain ⟨kf1, hk1, h⟩ := Option.bind_eq_some.mp h
    obtain ⟨kf2, hk2, h⟩ := Option.bind_eq_some.mp h
    obtain ⟨sl, hsl, h⟩ := Option.bind_eq_some.mp h
    injection h with h
    have hp := tickR_pres slerp (st.live.length + 1) st.store st.live kf1 kf2 t
      sl.1 sl.2 (by rw [hsl])
    rw [← h]
    exact ⟨hp.1, hp.2, fun k kfb hk => hk⟩
  | pick pos dir =>
    simp only [applyHOp] at h
    obtain ⟨sl, hsl, h⟩ := Option.map_eq_some'.mp h
    have hp := pickR_pres
      (show pickR pos dir st.store st.live = some (sl.1, sl.2) by rw [hsl])
    rw [← h]
    exact ⟨hp.1, hp.2, fun k kfb hk => hk⟩
  | capture =>
    simp only [applyHOp] at h
    obtain ⟨sk, hsk, h⟩ := Option.map_eq_some'.mp h
    rw [← h]
    exact ⟨captureBones_ext st.live st.store sk.1 sk.2 (by rw [hsk]),
      sameInit_refl _, fun k kfb hk => get?_append_left_vm hk _⟩

/-- Sequencing preserves all three preservation facts. -/
theorem applyHOps_pres (slerp : QuatH → QuatH → ℝ → QuatH) :
    ∀ (ops : List HOp) (st st' : HState), applyHOps slerp st ops = some st' →
      Ext st.store st'.store ∧ SameInit st.live st'.live ∧
      (∀ k kfb, st.kfs.get? k = some kfb → st'.kfs.get? k = some kfb) := by
  intro ops
  induction ops with
  | nil =>
    intro st st' h
    simp only [applyHOps] at h
    injection h with h
    rw [← h]
    exact ⟨ext_refl _, sameInit_refl _, fun _ _ hk => hk⟩
  | cons op rest ih =>
    intro st st' h
    simp only [applyHOps] at h
    obtain ⟨st1, hst1, h⟩ := Option.bind_eq_some.mp h
    have h1 := applyHOp_pres slerp st op st1 hst1
    have h2 := ih st1 st' h
    exact ⟨ext_trans h1.1 h2.1, sameInit_trans h1.2.1 h2.2.1,
      fun k kfb hk => h2.2.2 k kfb (h1.2.2 k kfb hk)⟩

/-! ### Claim C1: keyframe capture isolation -/

/-- Following the spec's words only: the keyframe shares no mutable
sub-object (no `Vec3`, `Quat` or `Mat4` cell) with the live skeleton. -/
def SpecNoSharedSubobject (live kbs : List BoneR) : Prop :=
  ∀ b ∈ live, ∀ kb ∈ kbs,
    b.position ≠ kb.position ∧ b.endpoint ≠ kb.endpoint ∧
    b.rotation ≠ kb.rotation ∧ b.T_ij ≠ kb.T_ij ∧ b.R_i ≠ kb.R_i ∧
    b.initPosition ≠ kb.initPosition ∧ b.initEndpoint ≠ kb.initEndpoint

/-- A tiny concrete heap for the capture counterexample. -/
def c1Store : Store :=
  ⟨[V3.zero, ⟨0, 0, 1⟩, V3.zero, ⟨0, 0, 1⟩], [QuatH.one, QuatH.one], [AT.idA]⟩

/-- One live root bone over `c1Store`. -/
def c1Bone : BoneR := ⟨-1, [], 0, 1, 0, false, 0, 1, 2, 3⟩

/-- The keyframe bone capture produces for `c1Bone`: fresh copies of the
`Vec3`/`Quat` state cells, but the very same `T_ij` (cell 0) and `R_i`
(cell 1) as the live bone. -/
def c1Kb : BoneR := ⟨-1, [], 4, 5, 2, false, 0, 1, 6, 7⟩

/-- Claim C1, counterexample to the claim as stated: the `KeyFrame`
copy constructor does NOT deep-copy the full state — on the concrete
one-bone skeleton the captured bone shares the `T_ij` and `R_i` objects
with the live bone (`this.T_ij = bone.T_ij; this.R_i = bone.R_i` in the
`Bone` copy constructor), refuting "the keyframe shares no mutable
sub-object with the live skeleton". -/
theorem c1_keyframe_isolation_counterexample :
    ∃ s' kbs, captureBones c1Store [c1Bone] = some (s', kbs) ∧
      ¬ SpecNoSharedSubobject [c1Bone] kbs := by
  refine ⟨_, [c1Kb], rfl, fun hns => ?_⟩
  exact ((hns c1Bone (by simp) c1Kb (by simp)).2.2.2.1) rfl

/-- A degenerate slerp stand-in (the interpolation routine lives in the
vendored TSM library and is irrelevant to preservation). -/
def idSlerp : QuatH → QuatH → ℝ → QuatH := fun q _ _ => q

/-- Claim C1 (amended): keyframe capture shares the `T_ij` and `R_i`
objects with the live bones instead of deep-copying them, but every
later mutation of the live skeleton — `rotateBone`, `updateMesh`,
`calculateD_iAndTranslate`, a playback interpolation tick, picking, or a
further capture — REBINDS live fields to freshly allocated objects and
never writes an existing cell, so every previously captured keyframe's
record and every value readable through it (position, endpoint,
rotation, `R_i`, `T_ij`, `initPosition`, `initEndpoint`) stay unchanged. -/
theorem c1_keyframe_isolation_amended (slerp : QuatH → QuatH → ℝ → QuatH)
    (st : HState) (ops : List HOp) (st' : HState)
    (h : applyHOps slerp st ops = some st')
    (k : ℕ) (kfb : List BoneR) (hk : st.kfs.get? k = some kfb) :
    st'.kfs.get? k = some kfb ∧
    ∀ kb bv, kb ∈ kfb → derefBoneR st.store kb = some bv →
      derefBoneR st'.store kb = some bv := by
  have hp := applyHOps_pres slerp ops st st' h
  exact ⟨hp.2.2 k kfb hk, fun kb bv _ hbv => derefBoneR_ext hp.1 hbv⟩

/-- Claim C1 (amended), witness: on the concrete one-bone skeleton, a
`rotateBone` after a capture leaves the captured keyframe record
intact. -/
theorem c1_keyframe_isolation_amended_witness :
    ∃ st', applyHOps idSlerp ⟨c1Store, [c1Bone], [[c1Kb]]⟩
        [HOp.rotate 0 ⟨0, 0, 1⟩ 1] = some st' ∧
      st'.kfs.get? 0 = some [c1Kb] := by
  refine ⟨_, rfl, ?_⟩
  exact (c1_keyframe_isolation_amended idSlerp ⟨c1Store, [c1Bone], [[c1Kb]]⟩
    [HOp.rotate 0 ⟨0, 0, 1⟩ 1] _ rfl 0 [c1Kb] rfl).1

/-! ### Claim C8: bind-pose immutability -/

theorem get?_append_at {α : Type} :
    ∀ (l : List α) (a : α) (l2 : List α), (l ++ a :: l2).get? l.length = some a := by
  intro l
  induction l with
  | nil => intro a l2; rfl
  | cons x xs ih =>
    intro a l2
    rw [List.cons_append, List.length_cons, List.get?_cons_succ]
    exact ih a l2

theorem get?_append_at2 {α : Type} (l : List α) (a b : α) :
    ((l ++ [a]) ++ [b]).get? l.length = some a := by
  rw [List.append_assoc]
  exact get?_append_at l a [b]

/-- The `Bone` constructor allocates fresh cells and stores the
loader-supplied bind pose into `initPosition`/`initEndpoint`. -/
theorem mkBoneR_init (s : Store) (lb : BoneLoaderV) :
    Ext s (mkBoneR s lb).1 ∧
    (mkBoneR s lb).1.vecs.get? (mkBoneR s lb).2.initPosition = some lb.position ∧
    (mkBoneR s lb).1.vecs.get? (mkBoneR s lb).2.initEndpoint = some lb.endpoint := by
  refine ⟨⟨fun a v h => ?_, fun a q h => ?_, fun a m h => ?_⟩, ?_, ?_⟩
  · exact get?_append_left_vm (get?_append_left_vm (get?_append_left_vm
      (get?_append_left_vm h _) _) _) _
  · exact get?_append_left_vm (get?_append_left_vm h _) _
  · exact get?_append_left_vm h _
  · exact get?_append_at2 ((s.vecs ++ [lb.position]) ++ [lb.endpoint])
      lb.position lb.endpoint
  · exact get?_append_at (((s.vecs ++ [lb.position]) ++ [lb.endpoint]) ++ [lb.position])
      lb.endpoint []

/-- Pass 1 of the `Mesh` constructor: the built bones' bind-pose cells
hold exactly the loader data. -/
theorem mkBonesR_init :
    ∀ (lbs : List BoneLoaderV) (s : Store),
      Ext s (mkBonesR s lbs).1 ∧
      ∀ i lb, lbs.get? i = some lb → ∃ b, (mkBonesR s lbs).2.get? i = some b ∧
        (mkBonesR s lbs).1.vecs.get? b.initPosition = some lb.position ∧
        (mkBonesR s lbs).1.vecs.get? b.initEndpoint = some lb.endpoint := by
  intro lbs
  induction lbs with
  | nil =>
    intro s
    exact ⟨ext_refl s, fun i lb h => by simp at h⟩
  | cons lb0 rest ih =>
    intro s
    have h0 := mkBoneR_init s lb0
    have h1 := ih (mkBoneR s lb0).1
    constructor
    · exact ext_trans h0.1 h1.1
    · intro i lb h
      cases i with
      | zero =>
        rw [List.get?_cons_zero] at h
        injection h with h
        subst h
        refine ⟨(mkBoneR s lb0).2, rfl, ?_, ?_⟩
        · exact h1.1.1 _ _ h0.2.1
        · exact h1.1.1 _ _ h0.2.2
      | succ i' =>
        rw [List.get?_cons_succ] at h
        obtain ⟨b, hb, h2, h3⟩ := h1.2 i' lb h
        exact ⟨b, hb, h2, h3⟩

/-- Pass 2 of the `Mesh` constructor writes only `T_ij` matrix cells:
the `Vec3` and `Quat` stores come out identical — in particular every
`initPosition`/`initEndpoint` cell is untouched. -/
theorem fixPassR_vecs :
    ∀ (bs allB : List BoneR) (s s' : Store),
      fixPassR allB s bs = some s' → s'.vecs = s.vecs ∧ s'.quats = s.quats := by
  intro bs
  induction bs with
  | nil =>
    intro allB s s' h
    simp only [fixPassR] at h
    injection h with h
    rw [← h]
    exact ⟨rfl, rfl⟩
  | cons b rest ih =>
    intro allB s s' h
    simp only [fixPassR] at h
    obtain ⟨ipv, _, h⟩ := Option.bind_eq_some.mp h
    by_cases hp : b.parent = -1
    · rw [if_pos hp, pure_bind_vm] at h
      obtain ⟨tv, _, h⟩ := Option.bind_eq_some.mp h
      have hr := ih allB _ s' h
      exact ⟨hr.1, hr.2⟩
    · rw [if_neg hp] at h
      obtain ⟨pb, _, h⟩ := Option.bind_eq_some.mp h
      obtain ⟨ppv, _, h⟩ := Option.bind_eq_some.mp h
      rw [pure_bind_vm] at h
      obtain ⟨tv, _, h⟩ := Option.bind_eq_some.mp h
      have hr := ih allB _ s' h
      exact ⟨hr.1, hr.2⟩

/-- The whole `Mesh` constructor: the bind-pose cells of every built
bone hold the loader values. -/
theorem mkMeshR_init (s : Store) (lbs : List BoneLoaderV) (s' : Store)
    (bs : List BoneR) (h : mkMeshR s lbs = some (s', bs)) :
    ∀ i lb, lbs.get? i = some lb → ∃ b, bs.get? i = some b ∧
      s'.vecs.get? b.initPosition = some lb.position ∧
      s'.vecs.get? b.initEndpoint = some lb.endpoint := by
  have hsplit : mkMeshR s lbs =
      (fixPassR (mkBonesR s lbs).2 (mkBonesR s lbs).1 (mkBonesR s lbs).2).map
        fun s2 => (s2, (mkBonesR s lbs).2) := rfl
  rw [hsplit] at h
  obtain ⟨s2, hs2, hmap⟩ := Option.map_eq_some'.mp h
  injection hmap with hs hl
  intro i lb hlb
  obtain ⟨b, hb, h2, h3⟩ := (mkBonesR_init lbs s).2 i lb hlb
  have hv := (fixPassR_vecs (mkBonesR s lbs).2 (mkBonesR s lbs).2
    (mkBonesR s lbs).1 s2 hs2).1
  refine ⟨b, by rw [← hl]; exact hb, ?_, ?_⟩
  · rw [← hs, hv]; exact h2
  · rw [← hs, hv]; exact h3

/-- Claim C8: bind-pose immutability.  The `Mesh` constructor stores the
loader-supplied bind pose into every bone's `initPosition` and
`initEndpoint` (pass 2, which initialises `T_ij` from the
parent-relative translation, writes only `T_ij` matrix cells), and every
subsequent operation — `rotateBone`, `updateMesh`,
`calculateD_iAndTranslate`, playback interpolation, picking,
keyframing — leaves both the fields (cell addresses) and the stored
bind-pose values of every live bone unchanged. -/
theorem c8_bindpose_immutability (slerp : QuatH → QuatH → ℝ → QuatH)
    (s0 : Store) (lbs : List BoneLoaderV) (s1 : Store) (bs : List BoneR)
    (hmk : mkMeshR s0 lbs = some (s1, bs)) (kfs0 : List (List BoneR))
    (ops : List HOp) (st' : HState)
    (h : applyHOps slerp ⟨s1, bs, kfs0⟩ ops = some st') :
    ∀ i lb, lbs.get? i = some lb →
      ∃ b b', bs.get? i = some b ∧ st'.live.get? i = some b' ∧
        b'.initPosition = b.initPosition ∧ b'.initEndpoint = b.initEndpoint ∧
        st'.store.vecs.get? b.initPosition = some lb.position ∧
        st'.store.vecs.get? b.initEndpoint = some lb.endpoint := by
  intro i lb hlb
  obtain ⟨b, hb, h2, h3⟩ := mkMeshR_init s0 lbs s1 bs hmk i lb hlb
  have hp := applyHOps_pres slerp ops ⟨s1, bs, kfs0⟩ st' h
  obtain ⟨b', hb', e1, e2⟩ := hp.2.1.2 i b hb
  exact ⟨b, b', hb, hb', e1, e2, hp.1.1 _ _ h2, hp.1.1 _ _ h3⟩

/-- Claim C8, witness: a one-bone mesh built from the sample loader on
an empty heap, followed by a `rotateBone`. -/
theorem c8_bindpose_immutability_witness :
    ∃ s1 bs st', mkMeshR ⟨[], [], []⟩ [sampleLoader] = some (s1, bs) ∧
      applyHOps idSlerp ⟨s1, bs, []⟩ [HOp.rotate 0 ⟨0, 0, 1⟩ 1] = some st' ∧
      ∃ b b', bs.get? 0 = some b ∧ st'.live.get? 0 = some b' ∧
        b'.initPosition = b.initPosition ∧ b'.initEndpoint = b.initEndpoint ∧
        st'.store.vecs.get? b.initPosition = some sampleLoader.position ∧
        st'.store.vecs.get? b.initEndpoint = some sampleLoader.endpoint := by
  refine ⟨_, _, _, rfl, rfl, ?_⟩
  exact c8_bindpose_immutability idSlerp ⟨[], [], []⟩ [sampleLoader] _ _ rfl []
    [HOp.rotate 0 ⟨0, 0, 1⟩ 1] _ rfl 0 sampleLoader rfl

end VM
